import Mathlib

/-!
Vector addition with CUDA unified memory.

A shallow embedding of `vector_add/vector_add_unified_fetch.cpp`:

* the kernel `vectorAdd`, executed by one worker `(blockIdx.x, threadIdx.x)`,
* the kernel launch `vectorAdd<<<GRID_SIZE, BLOCK_SIZE>>>`, as the kernel body run once
  for every worker of the grid,
* the host driver `main`: allocation, hints, initialisation, launch, verification.
  Its body is `mainBody`, with the vector length and the block size as parameters.

Conventions.

* `int` is a 32-bit two's complement integer.  A value of type `int` is an `Int`, and the
  result of every `int` operation is reduced with `wrapInt`: an overflow, which C++ leaves
  undefined, wraps around, as it does in the code generated for the host and the device.
  The theorems that assume that `N + BLOCK_SIZE` fits an `int` do not depend on this.
* `unsigned int` (the fields of `blockDim`, `blockIdx`, `threadIdx`) is a `Nat`, and the
  result of every `unsigned int` operation is reduced with `wrapUInt`.
* A buffer obtained from `cudaMallocManaged` is a `List Int`; the three buffers of the
  program are three separate lists.  An access outside a buffer is a fault.
* The workers of a launch run one after the other, in ascending order of block and
  thread index.  That the order is irrelevant is a theorem below.  A launch runs the
  kernel body for every worker of the requested grid; the limits a device puts on the
  dimensions of a grid are not part of the program and are not modelled.
* The calls of the CUDA runtime other than the launch do not change the contents of the
  buffers.  The driver records them, in the order of issue, in a list of steps.
-/

namespace VectorAdd

/-! ## Machine integers -/

/-- Reduction of a mathematical integer to the `int` it is stored as. -/
def wrapInt (x : Int) : Int := (x + 2147483648) % 4294967296 - 2147483648

/-- Reduction of a natural number to the `unsigned int` it is stored as. -/
def wrapUInt (x : Nat) : Nat := x % 4294967296

/-- Conversion `int` to `unsigned int`. -/
def toUInt (x : Int) : Nat := (x % 4294967296).toNat

/-- Conversion `unsigned int` to `int`. -/
def toInt (x : Nat) : Int := wrapInt (x : Int)

/-- The `int` operation `x + y`. -/
def addInt (x y : Int) : Int := wrapInt (x + y)

/-- The `int` operation `x - y`. -/
def subInt (x y : Int) : Int := wrapInt (x - y)

/-- The `int` operation `x / y`, which truncates towards zero. -/
def divInt (x y : Int) : Int := wrapInt (Int.tdiv x y)

/-- The `int` operation `x % y`, whose result has the sign of `x`. -/
def modInt (x y : Int) : Int := wrapInt (Int.tmod x y)

/-- The `int` operation `x << k`. -/
def shlInt (x : Int) (k : Nat) : Int := wrapInt (x * 2 ^ k)

/-- The `size_t` value of `N * sizeof(int)`: the `int` is converted to the 64-bit unsigned
`size_t` and multiplied by 4. -/
def sizeOfInts (N : Int) : Nat := ((N * 4) % 18446744073709551616).toNat

/-! ## Memory -/

/-- The three pointers of the program. -/
inductive Buf
  | a
  | b
  | c
deriving DecidableEq

/-- One access to an element of a buffer. -/
structure Access where
  buf : Buf
  idx : Int
  isWrite : Bool
deriving DecidableEq

/-- The ways the program can go wrong. -/
inductive Fault
  /-- An access outside the buffer. -/
  | outOfBounds (acc : Access)
  /-- The `assert` of the verification loop failed at index `i`. -/
  | assertFailed (i : Int)
deriving DecidableEq

/-- The unified memory: the contents of the buffers `a`, `b` and `c`, and the accesses the
kernel workers have performed so far, oldest first. -/
structure Mem where
  a : List Int
  b : List Int
  c : List Int
  trace : List Access
deriving DecidableEq

/-- Read `p[i]`, where the buffer behind `p` holds `buf`. -/
def load (p : Buf) (buf : List Int) (i : Int) : Except Fault Int :=
  if 0 ≤ i ∧ i < (buf.length : Int) then
    .ok (buf.getD i.toNat 0)
  else
    .error (.outOfBounds ⟨p, i, false⟩)

/-- Write `p[i] = v`, where the buffer behind `p` holds `buf`. -/
def store (p : Buf) (buf : List Int) (i : Int) (v : Int) : Except Fault (List Int) :=
  if 0 ≤ i ∧ i < (buf.length : Int) then
    .ok (buf.set i.toNat v)
  else
    .error (.outOfBounds ⟨p, i, true⟩)

/-! ## The kernel -/

/-- The global thread ID `int tid = (blockDim.x * blockIdx.x) + threadIdx.x;`.
The right-hand side is computed in `unsigned int` and converted to `int`. -/
def tid (blockDim blockIdx threadIdx : Nat) : Int :=
  toInt (wrapUInt (wrapUInt (blockDim * blockIdx) + threadIdx))

/-- The kernel `vectorAdd(a, b, c, N)` as executed by the worker `(blockIdx, threadIdx)` of
a launch with blocks of `blockDim` threads. -/
def vectorAdd (blockDim blockIdx threadIdx : Nat) (m : Mem) (N : Int) : Except Fault Mem :=
  let tid := tid blockDim blockIdx threadIdx
  if tid < N then
    match load .a m.a tid with
    | .error f => .error f
    | .ok x =>
      match load .b m.b tid with
      | .error f => .error f
      | .ok y =>
        match store .c m.c tid (addInt x y) with
        | .error f => .error f
        | .ok c' =>
          .ok { m with
                c := c'
                trace := m.trace ++ [⟨.a, tid, false⟩, ⟨.b, tid, false⟩, ⟨.c, tid, true⟩] }
  else
    .ok m

/-- The workers `(blockIdx, threadIdx)` of a grid of `gridDim` blocks of `blockDim`
threads, in ascending order. -/
def gridWorkers (gridDim blockDim : Nat) : List (Nat × Nat) :=
  (List.range gridDim).flatMap fun blockIdx =>
    (List.range blockDim).map fun threadIdx => (blockIdx, threadIdx)

/-- The kernel body run by the workers `ws`, one after the other. -/
def runWorkers (blockDim : Nat) (N : Int) : List (Nat × Nat) → Mem → Except Fault Mem
  | [], m => .ok m
  | w :: ws, m =>
    match vectorAdd blockDim w.1 w.2 m N with
    | .error f => .error f
    | .ok m' => runWorkers blockDim N ws m'

/-- The launch `vectorAdd<<<GRID_SIZE, BLOCK_SIZE>>>(a, b, c, N)`.  The two `int`
launch parameters are converted to the `unsigned int` fields of a `dim3`. -/
def launch (GRID_SIZE BLOCK_SIZE : Int) (m : Mem) (N : Int) : Except Fault Mem :=
  runWorkers (toUInt BLOCK_SIZE) N (gridWorkers (toUInt GRID_SIZE) (toUInt BLOCK_SIZE)) m

/-! ## The host driver -/

/-- The grid size `int GRID_SIZE = (N + BLOCK_SIZE - 1) / BLOCK_SIZE;`. -/
def GRID_SIZE (N BLOCK_SIZE : Int) : Int :=
  divInt (subInt (addInt N BLOCK_SIZE) 1) BLOCK_SIZE

/-- The advice values passed to `cudaMemAdvise`. -/
inductive Advice
  | setPreferredLocation
  | setReadMostly
deriving DecidableEq

/-- The steps of the driver that are visible from outside, in the order of issue. -/
inductive Op
  | mallocManaged (p : Buf) (bytes : Nat)
  | getDevice
  | memAdvise (p : Buf) (bytes : Nat) (advice : Advice) (device : Int)
  | memPrefetchAsync (p : Buf) (bytes : Nat) (device : Int)
  | hostInit
  | launchKernel (gridSize blockSize : Int)
  | deviceSynchronize
  | verify
  | free (p : Buf)
  | print (s : String)
deriving DecidableEq

/-- The constant `cudaCpuDeviceId` of the CUDA runtime, which is not part of the
repository. -/
def cudaCpuDeviceId : Int := -1

/-- What the program reads from its environment. -/
structure Env where
  /-- The value returned by call number `k` of `rand()`. -/
  rand : Nat → Int
  /-- The contents of the memory `cudaMallocManaged` hands out for `a`. -/
  garbageA : Nat → Int
  /-- The contents of the memory `cudaMallocManaged` hands out for `b`. -/
  garbageB : Nat → Int
  /-- The contents of the memory `cudaMallocManaged` hands out for `c`. -/
  garbageC : Nat → Int
  /-- The status returned by `cudaGetDevice`. -/
  getDeviceStatus : Int

/-- The state of the host program. -/
structure Host where
  mem : Mem
  /-- The steps issued so far, oldest first. -/
  ops : List Op
  /-- The number of calls of `rand()` so far. -/
  randCalls : Nat
  /-- What was written to standard output. -/
  out : String
deriving DecidableEq

/-- A fresh buffer of `bytes / sizeof(int)` elements with unspecified contents. -/
def alloc (garbage : Nat → Int) (bytes : Nat) : List Int :=
  (List.range (bytes / 4)).map fun i => wrapInt (garbage i)

/-- Replace the buffer behind a pointer. -/
def Mem.put (m : Mem) (p : Buf) (buf : List Int) : Mem :=
  match p with
  | .a => { m with a := buf }
  | .b => { m with b := buf }
  | .c => { m with c := buf }

/-- The call `cudaMallocManaged(&p, bytes)`. -/
def cudaMallocManaged (p : Buf) (garbage : Nat → Int) (bytes : Nat) (h : Host) : Host :=
  { h with mem := h.mem.put p (alloc garbage bytes), ops := h.ops ++ [.mallocManaged p bytes] }

/-- The call `cudaGetDevice(&id)`. -/
def cudaGetDevice (h : Host) : Host :=
  { h with ops := h.ops ++ [.getDevice] }

/-- The call `cudaMemAdvise(p, bytes, advice, device)`, a hint without effect on the
contents of memory. -/
def cudaMemAdvise (p : Buf) (bytes : Nat) (advice : Advice) (device : Int) (h : Host) : Host :=
  { h with ops := h.ops ++ [.memAdvise p bytes advice device] }

/-- The call `cudaMemPrefetchAsync(p, bytes, device)`, a hint without effect on the
contents of memory. -/
def cudaMemPrefetchAsync (p : Buf) (bytes : Nat) (device : Int) (h : Host) : Host :=
  { h with ops := h.ops ++ [.memPrefetchAsync p bytes device] }

/-- The call `cudaDeviceSynchronize()`.  The workers of the launch have already run in
this model, so nothing is left to wait for. -/
def cudaDeviceSynchronize (h : Host) : Host :=
  { h with ops := h.ops ++ [.deviceSynchronize] }

/-- The call `cudaFree(p)`. -/
def cudaFree (p : Buf) (h : Host) : Host :=
  { h with mem := h.mem.put p [], ops := h.ops ++ [.free p] }

/-- The body of the initialisation loop:
`a[i] = rand() % 100; b[i] = rand() % 100;`. -/
def initBody (rand : Nat → Int) (i : Int) (s : Mem × Nat) : Except Fault (Mem × Nat) :=
  match store .a s.1.a i (modInt (rand s.2) 100) with
  | .error f => .error f
  | .ok a' =>
    match store .b s.1.b i (modInt (rand (s.2 + 1)) 100) with
    | .error f => .error f
    | .ok b' => .ok ({ s.1 with a := a', b := b' }, s.2 + 2)

/-- The body of the verification loop: `assert(c[i] == a[i] + b[i]);`. -/
def verifyBody (i : Int) (m : Mem) : Except Fault Mem :=
  match load .c m.c i with
  | .error f => .error f
  | .ok z =>
    match load .a m.a i with
    | .error f => .error f
    | .ok x =>
      match load .b m.b i with
      | .error f => .error f
      | .ok y => if z = addInt x y then .ok m else .error (.assertFailed i)

/-- The iterations `i`, `i + 1`, ..., `i + n - 1` of a loop `for (...; i < N; i++)`. -/
def iterate {σ : Type} (body : Int → σ → Except Fault σ) : Nat → Int → σ → Except Fault σ
  | 0, _, s => .ok s
  | n + 1, i, s =>
    match body i s with
    | .error f => .error f
    | .ok s' => iterate body n (i + 1) s'

/-- The loop `for (int i = 0; i < N; i++) body`. -/
def forLoop {σ : Type} (N : Int) (body : Int → σ → Except Fault σ) (s : σ) : Except Fault σ :=
  iterate body N.toNat 0 s

/-- The initialisation loop of the driver. -/
def initLoop (rand : Nat → Int) (N : Int) (h : Host) : Except Fault Host :=
  match forLoop N (initBody rand) (h.mem, h.randCalls) with
  | .error f => .error f
  | .ok s => .ok { h with mem := s.1, randCalls := s.2, ops := h.ops ++ [.hostInit] }

/-- The kernel launch of the driver. -/
def launchKernel (GRID_SIZE BLOCK_SIZE : Int) (N : Int) (h : Host) : Except Fault Host :=
  match launch GRID_SIZE BLOCK_SIZE h.mem N with
  | .error f => .error f
  | .ok m => .ok { h with mem := m, ops := h.ops ++ [.launchKernel GRID_SIZE BLOCK_SIZE] }

/-- The verification loop of the driver. -/
def verify (N : Int) (h : Host) : Except Fault Host :=
  match forLoop N verifyBody h.mem with
  | .error f => .error f
  | .ok m => .ok { h with mem := m, ops := h.ops ++ [.verify] }

/-- The statement `cout << s;`. -/
def print (s : String) (h : Host) : Host :=
  { h with out := h.out ++ s, ops := h.ops ++ [.print s] }

/-- How a run of the program ends when nothing goes wrong. -/
structure Exit where
  status : Int
  out : String
  ops : List Op
deriving DecidableEq

/-- The body of `main`, with the two constants of the program, the vector length `N` and
the block size `BLOCK_SIZE`, as parameters.  A fault ends the run. -/
def mainBody (N BLOCK_SIZE : Int) (env : Env) : Except Fault Exit := do
  let bytes : Nat := sizeOfInts N
  let h : Host := ⟨⟨[], [], [], []⟩, [], 0, ""⟩
  let h := cudaMallocManaged .a env.garbageA bytes h
  let h := cudaMallocManaged .b env.garbageB bytes h
  let h := cudaMallocManaged .c env.garbageC bytes h
  let h := cudaGetDevice h
  let id : Int := env.getDeviceStatus
  let h := cudaMemAdvise .a bytes .setPreferredLocation cudaCpuDeviceId h
  let h := cudaMemAdvise .b bytes .setPreferredLocation cudaCpuDeviceId h
  let h := cudaMemPrefetchAsync .c bytes id h
  let h ← initLoop env.rand N h
  let h := cudaMemAdvise .a bytes .setReadMostly id h
  let h := cudaMemAdvise .b bytes .setReadMostly id h
  let h := cudaMemPrefetchAsync .a bytes id h
  let h := cudaMemPrefetchAsync .b bytes id h
  let GRID_SIZE : Int := GRID_SIZE N BLOCK_SIZE
  let h ← launchKernel GRID_SIZE BLOCK_SIZE N h
  let h := cudaDeviceSynchronize h
  let h := cudaMemPrefetchAsync .a bytes cudaCpuDeviceId h
  let h := cudaMemPrefetchAsync .b bytes cudaCpuDeviceId h
  let h := cudaMemPrefetchAsync .c bytes cudaCpuDeviceId h
  let h ← verify N h
  let h := cudaFree .a h
  let h := cudaFree .b h
  let h := cudaFree .c h
  let h := print "COMPLETED SUCCESSFULLY!\n" h
  return ⟨0, h.out, h.ops⟩

/-- The program `main`: `const int N = 1 << 16;` and `int BLOCK_SIZE = 1 << 10;`. -/
def main (env : Env) : Except Fault Exit :=
  mainBody (shlInt 1 16) (shlInt 1 10) env

/-! ## Auxiliary definitions for the proofs -/

/-- The kernel body after the thread ID has been computed: what a worker with thread ID
`t` does. -/
def kernelAt (t : Int) (m : Mem) (N : Int) : Except Fault Mem :=
  if t < N then
    match load .a m.a t with
    | .error f => .error f
    | .ok x =>
      match load .b m.b t with
      | .error f => .error f
      | .ok y =>
        match store .c m.c t (addInt x y) with
        | .error f => .error f
        | .ok c' =>
          .ok { m with
                c := c'
                trace := m.trace ++ [⟨.a, t, false⟩, ⟨.b, t, false⟩, ⟨.c, t, true⟩] }
  else
    .ok m

/-- The accesses of a worker with thread ID `t` that stays inside the buffers. -/
def accessesAt (t : Int) (N : Int) : List Access :=
  if t < N then [⟨.a, t, false⟩, ⟨.b, t, false⟩, ⟨.c, t, true⟩] else []

/-- A worker with thread ID `t` stays inside buffers of the given lengths: if it passes
the boundary check, `t` is an index of all three buffers. -/
def InBounds (N : Int) (la lb lc : Nat) (t : Int) : Prop :=
  t < N → 0 ≤ t ∧ t < (la : Int) ∧ t < (lb : Int) ∧ t < (lc : Int)

/-- The kernel body run by workers with the thread IDs `ts`, one after the other. -/
def runAt (N : Int) : List Int → Mem → Except Fault Mem
  | [], m => .ok m
  | t :: ts, m =>
    match kernelAt t m N with
    | .error f => .error f
    | .ok m' => runAt N ts m'

/-- The assertion of the verification loop holds at index `i`. -/
def Good (m : Mem) (i : Nat) : Prop :=
  m.c.getD i 0 = addInt (m.a.getD i 0) (m.b.getD i 0)

/-- Equality of results is decidable, so that closed runs can be evaluated. -/
instance instDecidableEqResult {α : Type} [DecidableEq α] : DecidableEq (Except Fault α)
  | .ok x, .ok y => if h : x = y then isTrue (by rw [h]) else isFalse (by intro e; cases e; exact h rfl)
  | .error f, .error g =>
    if h : f = g then isTrue (by rw [h]) else isFalse (by intro e; cases e; exact h rfl)
  | .ok _, .error _ => isFalse (by intro e; cases e)
  | .error _, .ok _ => isFalse (by intro e; cases e)

/-! ## Machine integers: when the operations are exact -/

theorem wrapInt_eq_self {x : Int} (h₁ : -2147483648 ≤ x) (h₂ : x ≤ 2147483647) :
    wrapInt x = x := by
  unfold wrapInt
  omega

theorem wrapUInt_eq_self {x : Nat} (h : x < 4294967296) : wrapUInt x = x := by
  unfold wrapUInt
  omega

theorem toUInt_eq_toNat {x : Int} (h₁ : 0 ≤ x) (h₂ : x ≤ 2147483647) : toUInt x = x.toNat := by
  unfold toUInt
  omega

theorem toUInt_natCast {n : Nat} (h : n ≤ 2147483647) : toUInt (n : Int) = n := by
  unfold toUInt
  omega

/-- The thread ID is the exact value of `blockDim * blockIdx + threadIdx` as long as that
value fits an `int`. -/
theorem tid_eq_of_lt {blockDim blockIdx threadIdx : Nat}
    (h : blockDim * blockIdx + threadIdx ≤ 2147483647) :
    tid blockDim blockIdx threadIdx = ((blockDim * blockIdx + threadIdx : Nat) : Int) := by
  unfold tid toInt
  generalize blockDim * blockIdx = p at h ⊢
  have h₁ : wrapUInt p = p := wrapUInt_eq_self (by omega)
  rw [h₁, wrapUInt_eq_self (by omega)]
  exact wrapInt_eq_self (by omega) (by omega)

/-- The thread ID of a worker whose global index fits an `unsigned int` is a given
non-negative `int` exactly when the global index is that number. -/
theorem tid_eq_natCast_iff {blockDim blockIdx threadIdx i : Nat}
    (h : blockDim * blockIdx + threadIdx < 4294967296) (hi : i ≤ 2147483647) :
    tid blockDim blockIdx threadIdx = (i : Int) ↔ blockDim * blockIdx + threadIdx = i := by
  unfold tid toInt
  generalize blockDim * blockIdx = p at h ⊢
  have h₁ : wrapUInt p = p := wrapUInt_eq_self (by omega)
  rw [h₁, wrapUInt_eq_self h]
  unfold wrapInt
  omega

/-- The grid size over the natural numbers: rounding up covers `n`, with less than one
block to spare. -/
theorem ceilDiv_bounds (n b : Nat) (hb : 1 ≤ b) :
    n ≤ (n + b - 1) / b * b ∧ (n + b - 1) / b * b < n + b := by
  have h₁ := Nat.div_add_mod (n + b - 1) b
  have h₂ := Nat.mod_lt (n + b - 1) (show b > 0 by omega)
  rw [Nat.mul_comm] at h₁
  generalize (n + b - 1) / b * b = q at h₁ ⊢
  generalize (n + b - 1) % b = r at h₁ h₂
  omega

/-- The grid size of the driver is the rounded-up quotient when `N + BLOCK_SIZE` fits an
`int`, so that no operation of the expression overflows. -/
theorem GRID_SIZE_eq {n b : Nat} (hb : 1 ≤ b) (h : n + b ≤ 2147483647) :
    GRID_SIZE (n : Int) (b : Int) = (((n + b - 1) / b : Nat) : Int) := by
  have e₁ : addInt (n : Int) (b : Int) = ((n + b : Nat) : Int) := by
    unfold addInt
    rw [wrapInt_eq_self (by omega) (by omega)]
    omega
  have e₂ : subInt ((n + b : Nat) : Int) 1 = ((n + b - 1 : Nat) : Int) := by
    unfold subInt
    rw [wrapInt_eq_self (by omega) (by omega)]
    omega
  have hq : (n + b - 1) / b ≤ n + b - 1 := Nat.div_le_self _ _
  unfold GRID_SIZE divInt
  rw [e₁, e₂, Int.tdiv_eq_ediv (by omega) (by omega), ← Int.natCast_div]
  generalize (n + b - 1) / b = q at hq ⊢
  refine wrapInt_eq_self ?_ ?_ <;> omega

/-! ## One worker -/

theorem vectorAdd_eq_kernelAt (blockDim blockIdx threadIdx : Nat) (m : Mem) (N : Int) :
    vectorAdd blockDim blockIdx threadIdx m N = kernelAt (tid blockDim blockIdx threadIdx) m N :=
  rfl

theorem load_ok {p : Buf} {buf : List Int} {i : Int} (h₀ : 0 ≤ i) (h : i < (buf.length : Int)) :
    load p buf i = .ok (buf.getD i.toNat 0) := by
  unfold load
  exact if_pos ⟨h₀, h⟩

theorem store_ok {p : Buf} {buf : List Int} {i v : Int} (h₀ : 0 ≤ i)
    (h : i < (buf.length : Int)) : store p buf i v = .ok (buf.set i.toNat v) := by
  unfold store
  exact if_pos ⟨h₀, h⟩

theorem load_fault {p : Buf} {buf : List Int} {i : Int}
    (h : ¬ (0 ≤ i ∧ i < (buf.length : Int))) :
    load p buf i = .error (.outOfBounds ⟨p, i, false⟩) := by
  unfold load
  exact if_neg h

theorem store_fault {p : Buf} {buf : List Int} {i v : Int}
    (h : ¬ (0 ≤ i ∧ i < (buf.length : Int))) :
    store p buf i v = .error (.outOfBounds ⟨p, i, true⟩) := by
  unfold store
  exact if_neg h

/-- A worker that fails the boundary check leaves the memory as it is. -/
theorem kernelAt_skip {t : Int} {m : Mem} {N : Int} (h : N ≤ t) : kernelAt t m N = .ok m := by
  unfold kernelAt
  exact if_neg (not_lt.mpr h)

/-- A worker that passes the boundary check with a thread ID inside the buffers stores
the sum and records its three accesses. -/
theorem kernelAt_active {t : Int} {m : Mem} {N : Int} (h : t < N) (h₀ : 0 ≤ t)
    (ha : t < (m.a.length : Int)) (hb : t < (m.b.length : Int)) (hc : t < (m.c.length : Int)) :
    kernelAt t m N =
      .ok { m with
            c := m.c.set t.toNat (addInt (m.a.getD t.toNat 0) (m.b.getD t.toNat 0))
            trace := m.trace ++ accessesAt t N } := by
  unfold kernelAt accessesAt
  simp only [if_pos h, load_ok h₀ ha, load_ok h₀ hb, store_ok h₀ hc]

/-- A worker that passes the boundary check with a thread ID outside a buffer faults. -/
theorem kernelAt_fault {t : Int} {m : Mem} {N : Int}
    (h : ¬ InBounds N m.a.length m.b.length m.c.length t) :
    ∃ f, kernelAt t m N = .error f := by
  unfold InBounds at h
  simp only [Classical.not_imp] at h
  obtain ⟨hlt, hnot⟩ := h
  unfold kernelAt
  rw [if_pos hlt]
  by_cases h₁ : 0 ≤ t ∧ t < (m.a.length : Int)
  · by_cases h₂ : 0 ≤ t ∧ t < (m.b.length : Int)
    · by_cases h₃ : 0 ≤ t ∧ t < (m.c.length : Int)
      · exact absurd ⟨h₁.1, h₁.2, h₂.2, h₃.2⟩ hnot
      · simp only [load_ok h₁.1 h₁.2, load_ok h₂.1 h₂.2, store_fault h₃]
        exact ⟨_, rfl⟩
    · simp only [load_ok h₁.1 h₁.2, load_fault h₂]
      exact ⟨_, rfl⟩
  · simp only [load_fault h₁]
    exact ⟨_, rfl⟩

/-- A worker that stays inside the buffers does not fault; it keeps `a`, `b` and the
lengths, and extends the trace by its accesses. -/
theorem kernelAt_inBounds {t : Int} {N : Int} {m : Mem}
    (h : InBounds N m.a.length m.b.length m.c.length t) :
    ∃ m', kernelAt t m N = .ok m' ∧ m'.a = m.a ∧ m'.b = m.b ∧
      m'.c.length = m.c.length ∧ m'.trace = m.trace ++ accessesAt t N ∧
      (t < N → m'.c = m.c.set t.toNat (addInt (m.a.getD t.toNat 0) (m.b.getD t.toNat 0))) ∧
      (N ≤ t → m'.c = m.c) := by
  by_cases hlt : t < N
  · obtain ⟨h₀, ha, hb, hc⟩ := h hlt
    refine ⟨_, kernelAt_active hlt h₀ ha hb hc, rfl, rfl, ?_, rfl, fun _ => rfl, ?_⟩
    · simp
    · intro hge
      omega
  · refine ⟨m, kernelAt_skip (not_lt.mp hlt), rfl, rfl, rfl, ?_, ?_, fun _ => rfl⟩
    · simp [accessesAt, hlt]
    · intro h'
      exact absurd h' hlt

/-! ## A sequence of workers -/

theorem runWorkers_eq_runAt (blockDim : Nat) (N : Int) (ws : List (Nat × Nat)) (m : Mem) :
    runWorkers blockDim N ws m = runAt N (ws.map fun w => tid blockDim w.1 w.2) m := by
  induction ws generalizing m with
  | nil => rfl
  | cons w ws ih =>
    simp only [runWorkers, List.map_cons, runAt, vectorAdd_eq_kernelAt]
    cases kernelAt (tid blockDim w.1 w.2) m N with
    | error f => rfl
    | ok m' => exact ih m'

/-- Workers that all stay inside the buffers run to the end.  The buffers `a` and `b` are
as before, the trace grows by the accesses of the workers in order, every element of `c`
whose index is the thread ID of a worker that passed the boundary check holds the sum, and
every other element of `c` is as before. -/
theorem runAt_ok {N : Int} (ts : List Int) (m : Mem)
    (h : ∀ t ∈ ts, InBounds N m.a.length m.b.length m.c.length t) :
    ∃ m', runAt N ts m = .ok m' ∧ m'.a = m.a ∧ m'.b = m.b ∧ m'.c.length = m.c.length ∧
      m'.trace = m.trace ++ ts.flatMap (fun t => accessesAt t N) ∧
      (∀ t ∈ ts, t < N →
        m'.c[t.toNat]? = some (addInt (m.a.getD t.toNat 0) (m.b.getD t.toNat 0))) ∧
      (∀ j : Nat, (∀ t ∈ ts, t < N → t.toNat ≠ j) → m'.c[j]? = m.c[j]?) := by
  induction ts generalizing m with
  | nil => exact ⟨m, rfl, rfl, rfl, rfl, by simp, by simp, fun _ _ => rfl⟩
  | cons t ts ih =>
    obtain ⟨m₁, hk, ha, hb, hlen, htr, hact, hskip⟩ :=
      kernelAt_inBounds (h t (List.mem_cons_self t ts))
    have h₁ : ∀ u ∈ ts, InBounds N m₁.a.length m₁.b.length m₁.c.length u := by
      intro u hu
      rw [ha, hb, hlen]
      exact h u (List.mem_cons_of_mem t hu)
    obtain ⟨m', hr, ha', hb', hlen', htr', hact', hskip'⟩ := ih m₁ h₁
    have hm₁c : ∀ j : Nat, (t < N → t.toNat ≠ j) → m₁.c[j]? = m.c[j]? := by
      intro j hj
      by_cases hlt : t < N
      · rw [hact hlt, List.getElem?_set_ne (hj hlt)]
      · rw [hskip (not_lt.mp hlt)]
    refine ⟨m', ?_, ha'.trans ha, hb'.trans hb, hlen'.trans hlen, ?_, ?_, ?_⟩
    · simp only [runAt, hk]
      exact hr
    · rw [htr', htr, List.flatMap_cons, List.append_assoc]
    · intro u hu hlt
      by_cases hex : ∃ v ∈ ts, v < N ∧ v.toNat = u.toNat
      · obtain ⟨v, hv, hvlt, hvu⟩ := hex
        have := hact' v hv hvlt
        rw [hvu, ha, hb] at this
        exact this
      · have hut : u = t := by
          rcases List.mem_cons.mp hu with e | e
          · exact e
          · exact absurd ⟨u, e, hlt, rfl⟩ hex
        subst hut
        have hno : ∀ v ∈ ts, v < N → v.toNat ≠ u.toNat := by
          intro v hv hvlt e
          exact hex ⟨v, hv, hvlt, e⟩
        rw [hskip' u.toNat hno, hact hlt]
        obtain ⟨h₀, -, -, hc⟩ := h u (List.mem_cons_self u ts) hlt
        have hc' : u.toNat < m.c.length := by omega
        rw [List.getElem?_set_self hc']
    · intro j hj
      rw [hskip' j (fun v hv hvlt => hj v (List.mem_cons_of_mem t hv) hvlt)]
      exact hm₁c j (hj t (List.mem_cons_self t ts))

/-- A sequence of workers with one that leaves the buffers ends in a fault. -/
theorem runAt_fault {N : Int} (ts : List Int) (m : Mem)
    (h : ∃ t ∈ ts, ¬ InBounds N m.a.length m.b.length m.c.length t) :
    ∃ f, runAt N ts m = .error f := by
  induction ts generalizing m with
  | nil =>
    obtain ⟨t, ht, -⟩ := h
    exact absurd ht (List.not_mem_nil t)
  | cons t ts ih =>
    by_cases hin : InBounds N m.a.length m.b.length m.c.length t
    · obtain ⟨m₁, hk, ha, hb, hlen, -⟩ := kernelAt_inBounds hin
      obtain ⟨u, hu, hbad⟩ := h
      have hu' : u ∈ ts := by
        rcases List.mem_cons.mp hu with e | e
        · subst e
          exact absurd hin hbad
        · exact e
      obtain ⟨f, hf⟩ := ih m₁ ⟨u, hu', by rw [ha, hb, hlen]; exact hbad⟩
      exact ⟨f, by simp only [runAt, hk]; exact hf⟩
    · obtain ⟨f, hf⟩ := kernelAt_fault hin
      exact ⟨f, by simp only [runAt, hf]⟩

/-! ## The workers of a grid -/

theorem mem_gridWorkers {gridDim blockDim : Nat} {w : Nat × Nat} :
    w ∈ gridWorkers gridDim blockDim ↔ w.1 < gridDim ∧ w.2 < blockDim := by
  unfold gridWorkers
  simp only [List.mem_flatMap, List.mem_range, List.mem_map]
  constructor
  · rintro ⟨b, hb, t, ht, rfl⟩
    exact ⟨hb, ht⟩
  · rintro ⟨hb, ht⟩
    exact ⟨w.1, hb, w.2, ht, rfl⟩

/-- In ascending order the workers of a grid have the global indices `0`, `1`, ...,
`gridDim * blockDim - 1`. -/
theorem gridWorkers_map_index (gridDim blockDim : Nat) :
    (gridWorkers gridDim blockDim).map (fun w => blockDim * w.1 + w.2) =
      List.range (gridDim * blockDim) := by
  unfold gridWorkers
  induction gridDim with
  | zero => simp
  | succ g ih =>
    rw [List.range_succ, List.flatMap_append, List.map_append, ih, Nat.succ_mul,
      List.range_add]
    simp [Nat.mul_comm]

/-- The thread IDs of the workers of a grid of at most `2 ^ 31` workers. -/
theorem gridWorkers_map_tid {gridDim blockDim : Nat} (h : gridDim * blockDim ≤ 2147483648) :
    (gridWorkers gridDim blockDim).map (fun w => tid blockDim w.1 w.2) =
      (List.range (gridDim * blockDim)).map (fun k : Nat => (k : Int)) := by
  rw [← gridWorkers_map_index, List.map_map]
  apply List.map_congr_left
  intro w hw
  obtain ⟨h₁, h₂⟩ := mem_gridWorkers.mp hw
  have h₃ : blockDim * w.1 + w.2 < gridDim * blockDim := by
    have : blockDim * (w.1 + 1) ≤ blockDim * gridDim := Nat.mul_le_mul_left _ h₁
    rw [Nat.mul_succ] at this
    rw [Nat.mul_comm gridDim blockDim]
    omega
  rw [tid_eq_of_lt (by omega)]
  rfl

/-- The launch of the driver, for a vector length and a block size whose sum fits an `int`:
the workers have the thread IDs `0`, `1`, ..., in this order, up to the grid size times the
block size. -/
theorem launch_eq_runAt {n b : Nat} (hb : 1 ≤ b) (hfit : n + b ≤ 2147483647) (m : Mem)
    (N : Int) :
    launch (GRID_SIZE (n : Int) (b : Int)) (b : Int) m N =
      runAt N ((List.range ((n + b - 1) / b * b)).map (fun k : Nat => (k : Int))) m := by
  have hg := (ceilDiv_bounds n b hb).2
  have hq : (n + b - 1) / b ≤ n + b - 1 := Nat.div_le_self _ _
  unfold launch
  rw [GRID_SIZE_eq hb hfit, toUInt_natCast (by omega), toUInt_natCast (by omega),
    runWorkers_eq_runAt, gridWorkers_map_tid (by omega)]

/-- Thread IDs below the length of the buffers stay inside the buffers. -/
theorem inBounds_range {N : Int} {la lb lc k : Nat} (ts : List Int)
    (hts : ts = (List.range k).map (fun j : Nat => (j : Int)))
    (ha : (la : Int) = N) (hb : (lb : Int) = N) (hc : (lc : Int) = N) :
    ∀ t ∈ ts, InBounds N la lb lc t := by
  subst hts
  intro t ht hlt
  obtain ⟨j, -, rfl⟩ := List.mem_map.mp ht
  omega

/-- A sequence of workers of the kernel with one that leaves the buffers ends in a
fault. -/
theorem runWorkers_fault (blockDim : Nat) (N : Int) (ws : List (Nat × Nat)) (m : Mem)
    (w : Nat × Nat) (hw : w ∈ ws)
    (hbad : ¬ InBounds N m.a.length m.b.length m.c.length (tid blockDim w.1 w.2)) :
    (runWorkers blockDim N ws m).toOption = none := by
  rw [runWorkers_eq_runAt]
  have hmem : tid blockDim w.1 w.2 ∈ ws.map (fun w => tid blockDim w.1 w.2) :=
    List.mem_map_of_mem (fun w : Nat × Nat => tid blockDim w.1 w.2) hw
  obtain ⟨f, hf⟩ := runAt_fault (N := N) _ m ⟨_, hmem, hbad⟩
  rw [hf]
  rfl

/-- A launch with a worker that leaves the buffers ends in a fault. -/
theorem launch_fault (GRID_SIZE BLOCK_SIZE : Int) (m : Mem) (N : Int) (w : Nat × Nat)
    (hw : w ∈ gridWorkers (toUInt GRID_SIZE) (toUInt BLOCK_SIZE))
    (hbad : ¬ InBounds N m.a.length m.b.length m.c.length (tid (toUInt BLOCK_SIZE) w.1 w.2)) :
    (launch GRID_SIZE BLOCK_SIZE m N).toOption = none :=
  runWorkers_fault _ N _ m w hw hbad

/-- The number of writes of `c[i]` among the accesses of workers with thread IDs `ts` is
the number of workers with thread ID `i`, when `i` passes the boundary check. -/
theorem count_write_flatMap (N : Int) (i : Int) (hi : i < N) (ts : List Int) :
    (ts.flatMap (fun t => accessesAt t N)).count ⟨.c, i, true⟩ = ts.count i := by
  induction ts with
  | nil => rfl
  | cons t ts ih =>
    rw [List.flatMap_cons, List.count_append, ih, List.count_cons]
    by_cases hti : t = i
    · subst hti
      simp [accessesAt, hi, List.count_cons, Nat.add_comm]
    · have hne : ¬ (⟨.c, t, true⟩ : Access) = ⟨.c, i, true⟩ := by
        intro e
        exact hti (congrArg Access.idx e)
      by_cases hlt : t < N
      · simp [accessesAt, hlt, List.count_cons, hti, hne]
      · simp [accessesAt, hlt, hti]

/-- Every write among the accesses of the workers goes to `c`. -/
theorem write_flatMap_c (N : Int) (ts : List Int) :
    ∀ acc ∈ ts.flatMap (fun t => accessesAt t N), acc.isWrite = true → acc.buf = .c := by
  intro acc hacc hw
  obtain ⟨t, -, ht⟩ := List.mem_flatMap.mp hacc
  unfold accessesAt at ht
  by_cases hlt : t < N
  · rw [if_pos hlt] at ht
    simp only [List.mem_cons, List.mem_singleton, List.not_mem_nil, or_false] at ht
    rcases ht with e | e | e
    · rw [e] at hw
      simp at hw
    · rw [e] at hw
      simp at hw
    · rw [e]
  · rw [if_neg hlt] at ht
    exact absurd ht (List.not_mem_nil acc)

/-- The number of workers with thread ID `i` among the thread IDs `0`, ..., `k - 1`. -/
theorem count_range_cast (k i : Nat) :
    ((List.range k).map (fun j : Nat => (j : Int))).count (i : Int) = if i < k then 1 else 0 := by
  have hnd : ((List.range k).map (fun j : Nat => (j : Int))).Nodup :=
    (List.nodup_range k).map (fun x y h => by exact_mod_cast h)
  have hmem : (i : Int) ∈ (List.range k).map (fun j : Nat => (j : Int)) ↔ i < k := by
    simp only [List.mem_map, List.mem_range]
    constructor
    · rintro ⟨j, hj, e⟩
      have : j = i := by exact_mod_cast e
      omega
    · intro h
      exact ⟨i, h, rfl⟩
  by_cases h : i < k
  · rw [if_pos h]
    exact List.count_eq_one_of_mem hnd (hmem.mpr h)
  · rw [if_neg h]
    exact List.count_eq_zero_of_not_mem (fun hm => h (hmem.mp hm))

/-- The final contents of the buffers do not depend on the order of the workers. -/
theorem runAt_perm {N : Int} {ts₁ ts₂ : List Int} (hp : ts₁.Perm ts₂) (m : Mem) :
    (runAt N ts₁ m).toOption.map (fun m' => (m'.a, m'.b, m'.c)) =
      (runAt N ts₂ m).toOption.map (fun m' => (m'.a, m'.b, m'.c)) := by
  by_cases hall : ∀ t ∈ ts₂, InBounds N m.a.length m.b.length m.c.length t
  · have hall₁ : ∀ t ∈ ts₁, InBounds N m.a.length m.b.length m.c.length t :=
      fun t ht => hall t (hp.mem_iff.mp ht)
    obtain ⟨m₁, hr₁, ha₁, hb₁, hl₁, -, hact₁, hskip₁⟩ := runAt_ok ts₁ m hall₁
    obtain ⟨m₂, hr₂, ha₂, hb₂, hl₂, -, hact₂, hskip₂⟩ := runAt_ok ts₂ m hall
    have hc : m₁.c = m₂.c := by
      apply List.ext_getElem?
      intro j
      by_cases hex : ∃ t ∈ ts₁, t < N ∧ t.toNat = j
      · obtain ⟨t, ht, hlt, rfl⟩ := hex
        rw [hact₁ t ht hlt, hact₂ t (hp.mem_iff.mp ht) hlt]
      · have hno₁ : ∀ t ∈ ts₁, t < N → t.toNat ≠ j := fun t ht hlt e => hex ⟨t, ht, hlt, e⟩
        have hno₂ : ∀ t ∈ ts₂, t < N → t.toNat ≠ j :=
          fun t ht hlt e => hex ⟨t, hp.mem_iff.mpr ht, hlt, e⟩
        rw [hskip₁ j hno₁, hskip₂ j hno₂]
    rw [hr₁, hr₂]
    simp only [Except.toOption, Option.map_some']
    rw [ha₁, ha₂, hb₁, hb₂, hc]
  · have hbad₂ : ∃ t ∈ ts₂, ¬ InBounds N m.a.length m.b.length m.c.length t := by
      by_contra hcon
      exact hall (fun t ht => by_contra fun hn => hcon ⟨t, ht, hn⟩)
    obtain ⟨t, ht, hn⟩ := hbad₂
    obtain ⟨f₁, hf₁⟩ := runAt_fault ts₁ m ⟨t, hp.mem_iff.mpr ht, hn⟩
    obtain ⟨f₂, hf₂⟩ := runAt_fault ts₂ m ⟨t, ht, hn⟩
    rw [hf₁, hf₂]
    rfl

/-! ## The loops of the driver -/

theorem verifyBody_ok {m : Mem} {i : Nat} (ha : i < m.a.length) (hb : i < m.b.length)
    (hc : i < m.c.length) (hg : Good m i) : verifyBody (i : Int) m = .ok m := by
  have h₀ : (0 : Int) ≤ (i : Int) := Int.natCast_nonneg i
  unfold Good at hg
  simp only [verifyBody, load_ok h₀ (Int.ofNat_lt.mpr ha), load_ok h₀ (Int.ofNat_lt.mpr hb),
    load_ok h₀ (Int.ofNat_lt.mpr hc), Int.toNat_ofNat, if_pos hg]

theorem verifyBody_bad {m : Mem} {i : Nat} (ha : i < m.a.length) (hb : i < m.b.length)
    (hc : i < m.c.length) (hg : ¬ Good m i) :
    verifyBody (i : Int) m = .error (.assertFailed (i : Int)) := by
  have h₀ : (0 : Int) ≤ (i : Int) := Int.natCast_nonneg i
  unfold Good at hg
  simp only [verifyBody, load_ok h₀ (Int.ofNat_lt.mpr ha), load_ok h₀ (Int.ofNat_lt.mpr hb),
    load_ok h₀ (Int.ofNat_lt.mpr hc), Int.toNat_ofNat, if_neg hg]

/-- The verification loop runs to the end when the assertion holds at every index it
visits. -/
theorem iterate_verify_ok (m : Mem) (n i₀ : Nat) (ha : i₀ + n ≤ m.a.length)
    (hb : i₀ + n ≤ m.b.length) (hc : i₀ + n ≤ m.c.length)
    (hg : ∀ j, i₀ ≤ j → j < i₀ + n → Good m j) :
    iterate verifyBody n (i₀ : Int) m = .ok m := by
  induction n generalizing i₀ with
  | zero => rfl
  | succ n ih =>
    have h₁ := verifyBody_ok (m := m) (i := i₀) (by omega) (by omega) (by omega)
      (hg i₀ (le_refl _) (by omega))
    simp only [iterate, h₁]
    have e : (i₀ : Int) + 1 = ((i₀ + 1 : Nat) : Int) := by omega
    rw [e]
    exact ih (i₀ + 1) (by omega) (by omega) (by omega) (fun j h₁ h₂ => hg j (by omega) (by omega))

/-- The verification loop stops at the first index at which the assertion fails. -/
theorem iterate_verify_bad (m : Mem) (n i₀ k : Nat) (ha : i₀ + n ≤ m.a.length)
    (hb : i₀ + n ≤ m.b.length) (hc : i₀ + n ≤ m.c.length) (hk₀ : i₀ ≤ k) (hk : k < i₀ + n)
    (hg : ∀ j, i₀ ≤ j → j < k → Good m j) (hbad : ¬ Good m k) :
    iterate verifyBody n (i₀ : Int) m = .error (.assertFailed (k : Int)) := by
  induction n generalizing i₀ with
  | zero => omega
  | succ n ih =>
    by_cases hik : i₀ = k
    · subst hik
      have h₁ := verifyBody_bad (m := m) (i := i₀) (by omega) (by omega) (by omega) hbad
      simp only [iterate, h₁]
    · have h₁ := verifyBody_ok (m := m) (i := i₀) (by omega) (by omega) (by omega)
        (hg i₀ (le_refl _) (by omega))
      simp only [iterate, h₁]
      have e : (i₀ : Int) + 1 = ((i₀ + 1 : Nat) : Int) := by omega
      rw [e]
      exact ih (i₀ + 1) (by omega) (by omega) (by omega) (by omega) (by omega)
        (fun j h₁ h₂ => hg j (by omega) h₂)

/-- The verification loop over buffers of length `n`: it runs to the end exactly when the
assertion holds at every index below `n`. -/
theorem forLoop_verify_iff (m : Mem) (n : Nat) (ha : m.a.length = n) (hb : m.b.length = n)
    (hc : m.c.length = n) :
    (∃ m', forLoop (n : Int) verifyBody m = .ok m') ↔ ∀ i, i < n → Good m i := by
  unfold forLoop
  rw [Int.toNat_ofNat]
  constructor
  · rintro ⟨m', hm'⟩
    by_contra hcon
    have hex : ∃ k, k < n ∧ ¬ Good m k := by
      by_contra hno
      exact hcon (fun i hi => by_contra fun hg => hno ⟨i, hi, hg⟩)
    classical
    have hk := Nat.find_spec hex
    have hmin : ∀ j, 0 ≤ j → j < Nat.find hex → Good m j := by
      intro j _ hj
      by_contra hg
      exact Nat.find_min hex hj ⟨by omega, hg⟩
    have := iterate_verify_bad m n 0 (Nat.find hex) (by omega) (by omega) (by omega)
      (Nat.zero_le _) (by omega) hmin hk.2
    rw [Nat.cast_zero] at this
    rw [this] at hm'
    cases hm'
  · intro hg
    have := iterate_verify_ok m n 0 (by omega) (by omega) (by omega)
      (fun j _ hj => hg j (by omega))
    rw [Nat.cast_zero] at this
    exact ⟨m, this⟩

/-- The assertion at an index inside the buffers, in terms of the elements. -/
theorem good_iff {m : Mem} {i : Nat} (ha : i < m.a.length) (hb : i < m.b.length)
    (hc : i < m.c.length) :
    Good m i ↔ ∃ x y, m.a[i]? = some x ∧ m.b[i]? = some y ∧ m.c[i]? = some (addInt x y) := by
  unfold Good
  simp only [List.getD_eq_getElem?_getD, List.getElem?_eq_getElem ha,
    List.getElem?_eq_getElem hb, List.getElem?_eq_getElem hc, Option.getD_some,
    Option.some.injEq]
  constructor
  · intro h
    exact ⟨_, _, rfl, rfl, h⟩
  · rintro ⟨x, y, rfl, rfl, h⟩
    exact h

theorem modInt_100_range {r : Int} (h : 0 ≤ r) : 0 ≤ modInt r 100 ∧ modInt r 100 < 100 := by
  have h₁ := Int.tmod_nonneg 100 h
  have h₂ := Int.tmod_lt_of_pos r (show (0 : Int) < 100 by decide)
  unfold modInt
  rw [wrapInt_eq_self (by omega) (by omega)]
  exact ⟨h₁, h₂⟩

theorem initBody_ok (rand : Nat → Int) {s : Mem × Nat} {i : Nat} (ha : i < s.1.a.length)
    (hb : i < s.1.b.length) :
    initBody rand (i : Int) s =
      .ok ({ s.1 with
              a := s.1.a.set i (modInt (rand s.2) 100)
              b := s.1.b.set i (modInt (rand (s.2 + 1)) 100) }, s.2 + 2) := by
  have h₀ : (0 : Int) ≤ (i : Int) := Int.natCast_nonneg i
  simp only [initBody, store_ok h₀ (Int.ofNat_lt.mpr ha), store_ok h₀ (Int.ofNat_lt.mpr hb),
    Int.toNat_ofNat]

/-- The initialisation loop over indices inside the buffers runs to the end.  It calls
`rand()` twice for every index, stores the two remainders at that index of `a` and `b`,
and keeps everything else. -/
theorem iterate_init (rand : Nat → Int) (n i₀ : Nat) (s : Mem × Nat)
    (ha : i₀ + n ≤ s.1.a.length) (hb : i₀ + n ≤ s.1.b.length) :
    ∃ s', iterate (initBody rand) n (i₀ : Int) s = .ok s' ∧ s'.2 = s.2 + 2 * n ∧
      s'.1.c = s.1.c ∧ s'.1.trace = s.1.trace ∧ s'.1.a.length = s.1.a.length ∧
      s'.1.b.length = s.1.b.length ∧
      (∀ j, i₀ ≤ j → j < i₀ + n →
        s'.1.a[j]? = some (modInt (rand (s.2 + 2 * (j - i₀))) 100) ∧
        s'.1.b[j]? = some (modInt (rand (s.2 + 2 * (j - i₀) + 1)) 100)) ∧
      (∀ j, j < i₀ → s'.1.a[j]? = s.1.a[j]? ∧ s'.1.b[j]? = s.1.b[j]?) := by
  induction n generalizing i₀ s with
  | zero =>
    refine ⟨s, rfl, rfl, rfl, rfl, rfl, rfl, ?_, fun _ _ => ⟨rfl, rfl⟩⟩
    intro j h₁ h₂
    omega
  | succ n ih =>
    have h₁ := initBody_ok rand (s := s) (i := i₀) (by omega) (by omega)
    obtain ⟨s', hr, hcnt, hc', htr', hla, hlb, hin, hout⟩ :=
      ih (i₀ + 1)
        ({ s.1 with
            a := s.1.a.set i₀ (modInt (rand s.2) 100)
            b := s.1.b.set i₀ (modInt (rand (s.2 + 1)) 100) }, s.2 + 2)
        (by simp only [List.length_set]; omega) (by simp only [List.length_set]; omega)
    simp only [List.length_set] at hla hlb
    simp only at hcnt hc' htr' hin hout
    refine ⟨s', ?_, by omega, hc', htr', hla, hlb, ?_, ?_⟩
    · simp only [iterate, h₁]
      have e : (i₀ : Int) + 1 = ((i₀ + 1 : Nat) : Int) := by omega
      rw [e]
      exact hr
    · intro j hj₁ hj₂
      by_cases hj : j = i₀
      · subst hj
        obtain ⟨e₁, e₂⟩ := hout j (by omega)
        rw [e₁, e₂, List.getElem?_set_self (by omega), List.getElem?_set_self (by omega)]
        simp
      · obtain ⟨e₁, e₂⟩ := hin j (by omega) (by omega)
        have k₁ : s.2 + 2 + 2 * (j - (i₀ + 1)) = s.2 + 2 * (j - i₀) := by omega
        have k₂ : s.2 + 2 + 2 * (j - (i₀ + 1)) + 1 = s.2 + 2 * (j - i₀) + 1 := by omega
        rw [k₁] at e₁
        rw [k₂] at e₂
        exact ⟨e₁, e₂⟩
    · intro j hj
      obtain ⟨e₁, e₂⟩ := hout j (by omega)
      rw [e₁, e₂, List.getElem?_set_ne (by omega), List.getElem?_set_ne (by omega)]
      exact ⟨rfl, rfl⟩

/-- The initialisation loop of the driver over buffers `a` and `b` of length `n`. -/
theorem initLoop_ok (rand : Nat → Int) (n : Nat) (h : Host) (ha : h.mem.a.length = n)
    (hb : h.mem.b.length = n) :
    ∃ h', initLoop rand (n : Int) h = .ok h' ∧ h'.ops = h.ops ++ [.hostInit] ∧
      h'.out = h.out ∧ h'.mem.c = h.mem.c ∧ h'.mem.a.length = n ∧ h'.mem.b.length = n ∧
      ∀ i, i < n →
        h'.mem.a[i]? = some (modInt (rand (h.randCalls + 2 * i)) 100) ∧
        h'.mem.b[i]? = some (modInt (rand (h.randCalls + 2 * i + 1)) 100) := by
  obtain ⟨s', hr, -, hc', -, hla, hlb, hin, -⟩ :=
    iterate_init rand n 0 (h.mem, h.randCalls) (by simp only; omega) (by simp only; omega)
  rw [Nat.cast_zero] at hr
  refine ⟨{ h with mem := s'.1, randCalls := s'.2, ops := h.ops ++ [.hostInit] }, ?_, rfl, rfl,
    hc', hla.trans ha, hlb.trans hb, ?_⟩
  · simp only [initLoop, forLoop, Int.toNat_ofNat, hr]
  · intro i hi
    have := hin i (Nat.zero_le _) (by omega)
    simpa using this

/-- The launch of the driver over buffers of length `n`, for a block size whose sum with
`n` fits an `int`: it runs to the end, keeps `a` and `b`, and leaves the sums in `c`. -/
theorem launch_ok {n b : Nat} (hb1 : 1 ≤ b) (hfit : n + b ≤ 2147483647) (m : Mem)
    (ha : m.a.length = n) (hb : m.b.length = n) (hc : m.c.length = n) :
    ∃ m', launch (GRID_SIZE (n : Int) (b : Int)) (b : Int) m (n : Int) = .ok m' ∧
      m'.a = m.a ∧ m'.b = m.b ∧ m'.c.length = m.c.length ∧ ∀ i, i < n → Good m' i := by
  rw [launch_eq_runAt hb1 hfit]
  obtain ⟨m', hr, ha', hb', hl', -, hact, -⟩ :=
    runAt_ok (N := (n : Int)) _ m
      (inBounds_range _ rfl (by omega) (by omega) (by omega))
  refine ⟨m', hr, ha', hb', hl', ?_⟩
  intro i hi
  have hcov := (ceilDiv_bounds n b hb1).1
  have hmem : (i : Int) ∈ (List.range ((n + b - 1) / b * b)).map (fun k : Nat => (k : Int)) :=
    List.mem_map.mpr ⟨i, List.mem_range.mpr (by omega), rfl⟩
  have := hact (i : Int) hmem (by omega)
  unfold Good
  rw [ha', hb', List.getD_eq_getElem?_getD m'.c, Int.toNat_ofNat] at *
  rw [this]
  rfl

theorem alloc_length (garbage : Nat → Int) (bytes : Nat) :
    (alloc garbage bytes).length = bytes / 4 := by
  unfold alloc
  rw [List.length_map, List.length_range]

/-! ## The steps of the driver, one projection at a time -/

theorem ok_bind {α β : Type} (x : α) (f : α → Except Fault β) :
    (Except.ok x >>= f) = f x := rfl

theorem ok_pure {α : Type} (x : α) : (pure x : Except Fault α) = .ok x := rfl

theorem cudaMallocManaged_ops (p : Buf) (g : Nat → Int) (bytes : Nat) (h : Host) :
    (cudaMallocManaged p g bytes h).ops = h.ops ++ [.mallocManaged p bytes] := rfl

theorem cudaMallocManaged_out (p : Buf) (g : Nat → Int) (bytes : Nat) (h : Host) :
    (cudaMallocManaged p g bytes h).out = h.out := rfl

theorem cudaMallocManaged_mem (p : Buf) (g : Nat → Int) (bytes : Nat) (h : Host) :
    (cudaMallocManaged p g bytes h).mem = h.mem.put p (alloc g bytes) := rfl

theorem cudaGetDevice_ops (h : Host) : (cudaGetDevice h).ops = h.ops ++ [.getDevice] := rfl

theorem cudaGetDevice_out (h : Host) : (cudaGetDevice h).out = h.out := rfl

theorem cudaGetDevice_mem (h : Host) : (cudaGetDevice h).mem = h.mem := rfl

theorem cudaMemAdvise_ops (p : Buf) (bytes : Nat) (advice : Advice) (device : Int) (h : Host) :
    (cudaMemAdvise p bytes advice device h).ops = h.ops ++ [.memAdvise p bytes advice device] :=
  rfl

theorem cudaMemAdvise_out (p : Buf) (bytes : Nat) (advice : Advice) (device : Int) (h : Host) :
    (cudaMemAdvise p bytes advice device h).out = h.out := rfl

theorem cudaMemAdvise_mem (p : Buf) (bytes : Nat) (advice : Advice) (device : Int) (h : Host) :
    (cudaMemAdvise p bytes advice device h).mem = h.mem := rfl

theorem cudaMemPrefetchAsync_ops (p : Buf) (bytes : Nat) (device : Int) (h : Host) :
    (cudaMemPrefetchAsync p bytes device h).ops = h.ops ++ [.memPrefetchAsync p bytes device] :=
  rfl

theorem cudaMemPrefetchAsync_out (p : Buf) (bytes : Nat) (device : Int) (h : Host) :
    (cudaMemPrefetchAsync p bytes device h).out = h.out := rfl

theorem cudaMemPrefetchAsync_mem (p : Buf) (bytes : Nat) (device : Int) (h : Host) :
    (cudaMemPrefetchAsync p bytes device h).mem = h.mem := rfl

theorem cudaDeviceSynchronize_ops (h : Host) :
    (cudaDeviceSynchronize h).ops = h.ops ++ [.deviceSynchronize] := rfl

theorem cudaDeviceSynchronize_out (h : Host) : (cudaDeviceSynchronize h).out = h.out := rfl

theorem cudaDeviceSynchronize_mem (h : Host) : (cudaDeviceSynchronize h).mem = h.mem := rfl

theorem cudaFree_ops (p : Buf) (h : Host) : (cudaFree p h).ops = h.ops ++ [.free p] := rfl

theorem cudaFree_out (p : Buf) (h : Host) : (cudaFree p h).out = h.out := rfl

theorem print_ops (s : String) (h : Host) : (print s h).ops = h.ops ++ [.print s] := rfl

theorem print_out (s : String) (h : Host) : (print s h).out = h.out ++ s := rfl

/-- The kernel launch of the driver over buffers of length `n`, for a block size whose sum
with `n` fits an `int`. -/
theorem launchKernel_ok {n b : Nat} (hb1 : 1 ≤ b) (hfit : n + b ≤ 2147483647) (h : Host)
    (ha : h.mem.a.length = n) (hb : h.mem.b.length = n) (hc : h.mem.c.length = n) :
    ∃ h', launchKernel (GRID_SIZE (n : Int) (b : Int)) (b : Int) (n : Int) h = .ok h' ∧
      h'.ops = h.ops ++ [.launchKernel (GRID_SIZE (n : Int) (b : Int)) (b : Int)] ∧
      h'.out = h.out ∧ h'.mem.a.length = n ∧ h'.mem.b.length = n ∧ h'.mem.c.length = n ∧
      ∀ i, i < n → Good h'.mem i := by
  obtain ⟨m', e, ha', hb', hl', hg⟩ := launch_ok hb1 hfit h.mem ha hb hc
  refine ⟨{ h with mem := m', ops := h.ops ++ [.launchKernel (GRID_SIZE (n : Int) (b : Int)) (b : Int)] },
    ?_, rfl, rfl, ?_, ?_, ?_, hg⟩
  · rw [launchKernel, e]
  · exact (congrArg List.length ha').trans ha
  · exact (congrArg List.length hb').trans hb
  · exact hl'.trans hc

/-- The verification loop of the driver over buffers of length `n` that hold the sums. -/
theorem verify_ok (n : Nat) (h : Host) (ha : h.mem.a.length = n) (hb : h.mem.b.length = n)
    (hc : h.mem.c.length = n) (hg : ∀ i, i < n → Good h.mem i) :
    ∃ h', verify (n : Int) h = .ok h' ∧ h'.ops = h.ops ++ [.verify] ∧ h'.out = h.out := by
  obtain ⟨m', e⟩ := (forLoop_verify_iff h.mem n ha hb hc).mpr hg
  exact ⟨{ h with mem := m', ops := h.ops ++ [.verify] }, by rw [verify, e], rfl, rfl⟩

/-- The run of the program for a vector length and a block size whose sum fits an `int`:
it ends with status 0 after printing the success message, and these are the steps it has
issued, in order. -/
theorem mainBody_eq (env : Env) {n b : Nat} (hb1 : 1 ≤ b) (hfit : n + b ≤ 2147483647) :
    mainBody (n : Int) (b : Int) env = .ok ⟨0, "COMPLETED SUCCESSFULLY!\n",
      [.mallocManaged .a (sizeOfInts (n : Int)), .mallocManaged .b (sizeOfInts (n : Int)),
        .mallocManaged .c (sizeOfInts (n : Int)),
        .getDevice,
        .memAdvise .a (sizeOfInts (n : Int)) .setPreferredLocation cudaCpuDeviceId,
        .memAdvise .b (sizeOfInts (n : Int)) .setPreferredLocation cudaCpuDeviceId,
        .memPrefetchAsync .c (sizeOfInts (n : Int)) env.getDeviceStatus,
        .hostInit,
        .memAdvise .a (sizeOfInts (n : Int)) .setReadMostly env.getDeviceStatus,
        .memAdvise .b (sizeOfInts (n : Int)) .setReadMostly env.getDeviceStatus,
        .memPrefetchAsync .a (sizeOfInts (n : Int)) env.getDeviceStatus,
        .memPrefetchAsync .b (sizeOfInts (n : Int)) env.getDeviceStatus,
        .launchKernel (GRID_SIZE (n : Int) (b : Int)) (b : Int),
        .deviceSynchronize,
        .memPrefetchAsync .a (sizeOfInts (n : Int)) cudaCpuDeviceId,
        .memPrefetchAsync .b (sizeOfInts (n : Int)) cudaCpuDeviceId,
        .memPrefetchAsync .c (sizeOfInts (n : Int)) cudaCpuDeviceId,
        .verify,
        .free .a, .free .b, .free .c,
        .print "COMPLETED SUCCESSFULLY!\n"]⟩ := by
  have hdiv : sizeOfInts (n : Int) / 4 = n := by
    unfold sizeOfInts
    omega
  unfold mainBody
  generalize sizeOfInts (n : Int) = bytes at hdiv ⊢
  have hlen : ∀ g : Nat → Int, (alloc g bytes).length = n := fun g => by
    rw [alloc_length, hdiv]
  -- allocation and the first hints
  obtain ⟨h₁, e₁, o₁, out₁, c₁, la₁, lb₁, -⟩ :=
    initLoop_ok env.rand n
      (cudaMemPrefetchAsync .c bytes env.getDeviceStatus
        (cudaMemAdvise .b bytes .setPreferredLocation cudaCpuDeviceId
          (cudaMemAdvise .a bytes .setPreferredLocation cudaCpuDeviceId
            (cudaGetDevice
              (cudaMallocManaged .c env.garbageC bytes
                (cudaMallocManaged .b env.garbageB bytes
                  (cudaMallocManaged .a env.garbageA bytes
                    ⟨⟨[], [], [], []⟩, [], 0, ""⟩)))))))
      (by simp only [cudaMemPrefetchAsync_mem, cudaMemAdvise_mem, cudaGetDevice_mem,
            cudaMallocManaged_mem, Mem.put]; exact hlen env.garbageA)
      (by simp only [cudaMemPrefetchAsync_mem, cudaMemAdvise_mem, cudaGetDevice_mem,
            cudaMallocManaged_mem, Mem.put]; exact hlen env.garbageB)
  have lc₁ : h₁.mem.c.length = n := by
    rw [c₁]
    simp only [cudaMemPrefetchAsync_mem, cudaMemAdvise_mem, cudaGetDevice_mem,
      cudaMallocManaged_mem, Mem.put]
    exact hlen env.garbageC
  -- the second hints and the launch
  obtain ⟨h₂, e₂, o₂, out₂, la₂, lb₂, lc₂, g₂⟩ :=
    launchKernel_ok hb1 hfit
      (cudaMemPrefetchAsync .b bytes env.getDeviceStatus
        (cudaMemPrefetchAsync .a bytes env.getDeviceStatus
          (cudaMemAdvise .b bytes .setReadMostly env.getDeviceStatus
            (cudaMemAdvise .a bytes .setReadMostly env.getDeviceStatus h₁))))
      la₁ lb₁ lc₁
  -- the prefetches to the host and the verification
  obtain ⟨h₃, e₃, o₃, out₃⟩ :=
    verify_ok n
      (cudaMemPrefetchAsync .c bytes cudaCpuDeviceId
        (cudaMemPrefetchAsync .b bytes cudaCpuDeviceId
          (cudaMemPrefetchAsync .a bytes cudaCpuDeviceId (cudaDeviceSynchronize h₂))))
      la₂ lb₂ lc₂ g₂
  simp only [e₁]
  rw [ok_bind, e₂, ok_bind, e₃, ok_bind, ok_pure]
  simp only [print_ops, print_out, cudaFree_ops, cudaFree_out, o₃, out₃,
    cudaMemPrefetchAsync_ops, cudaMemPrefetchAsync_out, cudaDeviceSynchronize_ops,
    cudaDeviceSynchronize_out, o₂, out₂, cudaMemAdvise_ops, cudaMemAdvise_out, o₁, out₁,
    cudaGetDevice_ops, cudaGetDevice_out, cudaMallocManaged_ops, cudaMallocManaged_out,
    List.nil_append, List.cons_append, List.append_assoc, String.empty_append]

/-- The run of the program: it ends with status 0 after printing the success message,
and these are the steps it has issued, in order. -/
theorem main_eq (env : Env) :
    main env = .ok ⟨0, "COMPLETED SUCCESSFULLY!\n",
      [.mallocManaged .a 262144, .mallocManaged .b 262144, .mallocManaged .c 262144,
        .getDevice,
        .memAdvise .a 262144 .setPreferredLocation cudaCpuDeviceId,
        .memAdvise .b 262144 .setPreferredLocation cudaCpuDeviceId,
        .memPrefetchAsync .c 262144 env.getDeviceStatus,
        .hostInit,
        .memAdvise .a 262144 .setReadMostly env.getDeviceStatus,
        .memAdvise .b 262144 .setReadMostly env.getDeviceStatus,
        .memPrefetchAsync .a 262144 env.getDeviceStatus,
        .memPrefetchAsync .b 262144 env.getDeviceStatus,
        .launchKernel 64 1024,
        .deviceSynchronize,
        .memPrefetchAsync .a 262144 cudaCpuDeviceId,
        .memPrefetchAsync .b 262144 cudaCpuDeviceId,
        .memPrefetchAsync .c 262144 cudaCpuDeviceId,
        .verify,
        .free .a, .free .b, .free .c,
        .print "COMPLETED SUCCESSFULLY!\n"]⟩ := by
  have hN : shlInt 1 16 = ((65536 : Nat) : Int) := by decide
  have hB : shlInt 1 10 = ((1024 : Nat) : Int) := by decide
  have hbytes : sizeOfInts ((65536 : Nat) : Int) = 262144 := by decide
  have hG : GRID_SIZE ((65536 : Nat) : Int) ((1024 : Nat) : Int) = 64 := by decide
  have h1024 : ((1024 : Nat) : Int) = 1024 := rfl
  unfold main
  rw [hN, hB, mainBody_eq env (by decide) (by decide), hbytes, hG, h1024]

/-! ## The claims -/

/-- C1 (amended).  For every length `N >= 0` and block size `>= 1` whose sum fits an
`int`, and all buffers of length `N`, the launch over the grid of
`(N + BLOCK_SIZE - 1) / BLOCK_SIZE` blocks runs to the end without a fault and leaves
`c[i] = a[i] + b[i]`, in `int` arithmetic, for every index `i` below `N`. -/
theorem C1_vectorAdd_sum (N BLOCK_SIZE : Int) (m : Mem) (hN : 0 ≤ N) (hB : 1 ≤ BLOCK_SIZE)
    (hfit : N + BLOCK_SIZE ≤ 2147483647) (ha : (m.a.length : Int) = N)
    (hb : (m.b.length : Int) = N) (hc : (m.c.length : Int) = N) :
    ∃ m', launch (GRID_SIZE N BLOCK_SIZE) BLOCK_SIZE m N = .ok m' ∧
      ∀ i : Nat, (i : Int) < N →
        ∃ x y, m.a[i]? = some x ∧ m.b[i]? = some y ∧ m'.c[i]? = some (addInt x y) := by
  obtain ⟨n, rfl⟩ := Int.eq_ofNat_of_zero_le hN
  obtain ⟨b, rfl⟩ := Int.eq_ofNat_of_zero_le (show (0 : Int) ≤ BLOCK_SIZE by omega)
  obtain ⟨m', hr, ha', hb', hl', hg⟩ :=
    launch_ok (show 1 ≤ b by omega) (show n + b ≤ 2147483647 by omega) m
      (by omega) (by omega) (by omega)
  refine ⟨m', hr, ?_⟩
  intro i hi
  have hi' : i < n := by omega
  have hgi := (good_iff (show i < m'.a.length by rw [ha']; omega)
    (show i < m'.b.length by rw [hb']; omega) (show i < m'.c.length by omega)).mp (hg i hi')
  rw [ha', hb'] at hgi
  exact hgi

/-- C1, the scenario of the specification: `N = 16` and blocks of 4 give a grid of 4
blocks, and `a = [1, ..., 16]`, `b = [16, ..., 1]` give sixteen times 17. -/
theorem C1_vectorAdd_sum_witness :
    GRID_SIZE 16 4 = 4 ∧
    (launch (GRID_SIZE 16 4) 4
      ⟨[1, 2, 3, 4, 5, 6, 7, 8, 9, 10, 11, 12, 13, 14, 15, 16],
        [16, 15, 14, 13, 12, 11, 10, 9, 8, 7, 6, 5, 4, 3, 2, 1],
        [0, 0, 0, 0, 0, 0, 0, 0, 0, 0, 0, 0, 0, 0, 0, 0], []⟩ 16).toOption.map Mem.c =
      some [17, 17, 17, 17, 17, 17, 17, 17, 17, 17, 17, 17, 17, 17, 17, 17] ∧
    ∃ m', launch (GRID_SIZE 16 4) 4
      ⟨[1, 2, 3, 4, 5, 6, 7, 8, 9, 10, 11, 12, 13, 14, 15, 16],
        [16, 15, 14, 13, 12, 11, 10, 9, 8, 7, 6, 5, 4, 3, 2, 1],
        [0, 0, 0, 0, 0, 0, 0, 0, 0, 0, 0, 0, 0, 0, 0, 0], []⟩ 16 = .ok m' ∧
      ∀ i : Nat, (i : Int) < 16 →
        ∃ x y, [(1 : Int), 2, 3, 4, 5, 6, 7, 8, 9, 10, 11, 12, 13, 14, 15, 16][i]? = some x ∧
          [(16 : Int), 15, 14, 13, 12, 11, 10, 9, 8, 7, 6, 5, 4, 3, 2, 1][i]? = some y ∧
          m'.c[i]? = some (addInt x y) :=
  ⟨by decide, by decide,
    C1_vectorAdd_sum 16 4
      ⟨[1, 2, 3, 4, 5, 6, 7, 8, 9, 10, 11, 12, 13, 14, 15, 16],
        [16, 15, 14, 13, 12, 11, 10, 9, 8, 7, 6, 5, 4, 3, 2, 1],
        [0, 0, 0, 0, 0, 0, 0, 0, 0, 0, 0, 0, 0, 0, 0, 0], []⟩
      (by decide) (by decide) (by decide) (by decide) (by decide) (by decide)⟩

/-- C1 as stated fails for a long vector: with `N = 2147483647` and blocks of 1000 threads
the launch ends in a fault, both over the grid size the driver computes and over the exact
rounded-up quotient 2147484.  The worker with block index 2147483 and thread index 648 has
the thread ID `-2147483648`, passes the boundary check and reads `a[-2147483648]`. -/
theorem C1_vectorAdd_sum_counterexample :
    tid 1000 2147483 648 = -2147483648 ∧
    (launch (GRID_SIZE 2147483647 1000) 1000
      ⟨List.replicate 2147483647 0, List.replicate 2147483647 0,
        List.replicate 2147483647 0, []⟩ 2147483647).toOption = none ∧
    (launch 2147484 1000
      ⟨List.replicate 2147483647 0, List.replicate 2147483647 0,
        List.replicate 2147483647 0, []⟩ 2147483647).toOption = none := by
  have ht : tid (toUInt 1000) 2147483 648 = -2147483648 := by decide
  refine ⟨by decide, ?_, ?_⟩
  · refine launch_fault _ _ _ _ (2147483, 648) (mem_gridWorkers.mpr ⟨by decide, by decide⟩) ?_
    intro h
    rw [ht] at h
    exact absurd (h (by decide)).1 (by decide)
  · refine launch_fault _ _ _ _ (2147483, 648) (mem_gridWorkers.mpr ⟨by decide, by decide⟩) ?_
    intro h
    rw [ht] at h
    exact absurd (h (by decide)).1 (by decide)

/-- C2 (amended).  For every `N >= 0` and block size `>= 1` whose sum fits an `int`, the
grid size `(N + BLOCK_SIZE - 1) / BLOCK_SIZE` of the driver covers `N` with less than one
block to spare.  For the values of the program, `N = 1 << 16` and `BLOCK_SIZE = 1 << 10`,
the grid size is 64. -/
theorem C2_grid_covers (N BLOCK_SIZE : Int) (hN : 0 ≤ N) (hB : 1 ≤ BLOCK_SIZE)
    (hfit : N + BLOCK_SIZE ≤ 2147483647) :
    GRID_SIZE N BLOCK_SIZE * BLOCK_SIZE ≥ N ∧
      GRID_SIZE N BLOCK_SIZE * BLOCK_SIZE - BLOCK_SIZE < N ∧
      GRID_SIZE (shlInt 1 16) (shlInt 1 10) = 64 := by
  obtain ⟨n, rfl⟩ := Int.eq_ofNat_of_zero_le hN
  obtain ⟨b, rfl⟩ := Int.eq_ofNat_of_zero_le (show (0 : Int) ≤ BLOCK_SIZE by omega)
  have hb1 : 1 ≤ b := by omega
  obtain ⟨h₁, h₂⟩ := ceilDiv_bounds n b hb1
  rw [GRID_SIZE_eq hb1 (by omega), ← Int.natCast_mul]
  generalize (n + b - 1) / b * b = q at h₁ h₂
  refine ⟨by omega, by omega, by decide⟩

/-- C2 at the values of the program: `N = 65536` and `BLOCK_SIZE = 1024`. -/
theorem C2_grid_covers_witness :
    GRID_SIZE 65536 1024 * 1024 ≥ 65536 ∧ GRID_SIZE 65536 1024 * 1024 - 1024 < 65536 ∧
      GRID_SIZE (shlInt 1 16) (shlInt 1 10) = 64 :=
  C2_grid_covers 65536 1024 (by decide) (by decide) (by decide)

/-- C2 as stated fails when `N + BLOCK_SIZE - 1` does not fit an `int`: for
`N = 2147483647` and `BLOCK_SIZE = 2` the grid size comes out negative and does not
cover `N`. -/
theorem C2_grid_covers_counterexample :
    GRID_SIZE 2147483647 2 = -1073741824 ∧
      ¬ (GRID_SIZE 2147483647 2 * 2 ≥ 2147483647) := by
  decide

/-- C3.  For every `N >= 0` and block size `>= 1`, both of type `int`, and the grid size
`(N + BLOCK_SIZE - 1) / BLOCK_SIZE`, the rounded-up quotient, every index `i` below `N` is
the thread ID of exactly one worker of the grid: there is exactly one pair of a block
index below the grid size and a thread index below the block size whose thread ID, as the
kernel computes it, is `i`.  The grid size of the driver is this quotient whenever
`N + BLOCK_SIZE` fits an `int`. -/
theorem C3_unique_worker (N BLOCK_SIZE : Int) (i : Nat) (hN : 0 ≤ N)
    (hNmax : N ≤ 2147483647) (hB : 1 ≤ BLOCK_SIZE) (hBmax : BLOCK_SIZE ≤ 2147483647)
    (hi : (i : Int) < N) :
    (∃! w : Nat × Nat, (w.1 : Int) < (N + BLOCK_SIZE - 1) / BLOCK_SIZE ∧
      (w.2 : Int) < BLOCK_SIZE ∧ tid (toUInt BLOCK_SIZE) w.1 w.2 = (i : Int)) ∧
    (N + BLOCK_SIZE ≤ 2147483647 →
      GRID_SIZE N BLOCK_SIZE = (N + BLOCK_SIZE - 1) / BLOCK_SIZE) := by
  obtain ⟨n, rfl⟩ := Int.eq_ofNat_of_zero_le hN
  obtain ⟨b, rfl⟩ := Int.eq_ofNat_of_zero_le (show (0 : Int) ≤ BLOCK_SIZE by omega)
  have hb1 : 1 ≤ b := by omega
  obtain ⟨h₁, h₂⟩ := ceilDiv_bounds n b hb1
  have e : (n : Int) + (b : Int) - 1 = ((n + b - 1 : Nat) : Int) := by omega
  rw [e, ← Int.natCast_div, toUInt_natCast (by omega)]
  refine ⟨?_, fun hfit => GRID_SIZE_eq hb1 (by omega)⟩
  have hin : i < n := by omega
  have key : ∀ w : Nat × Nat, w.1 < (n + b - 1) / b → w.2 < b →
      b * w.1 + w.2 < (n + b - 1) / b * b := by
    intro w hw₁ hw₂
    have : b * (w.1 + 1) ≤ b * ((n + b - 1) / b) := Nat.mul_le_mul_left _ hw₁
    rw [Nat.mul_succ] at this
    rw [Nat.mul_comm ((n + b - 1) / b) b]
    omega
  refine ⟨(i / b, i % b), ⟨?_, ?_, ?_⟩, ?_⟩
  · have : i / b < (n + b - 1) / b := by
      apply Nat.div_lt_of_lt_mul
      rw [Nat.mul_comm]
      omega
    exact_mod_cast this
  · exact_mod_cast Nat.mod_lt i (by omega)
  · have hdm := Nat.div_add_mod i b
    exact (tid_eq_natCast_iff (by simp only; omega) (by omega)).mpr hdm
  · rintro ⟨w₁, w₂⟩ ⟨hw₁, hw₂, hw⟩
    have hw₁' : w₁ < (n + b - 1) / b := by exact_mod_cast hw₁
    have hw₂' : w₂ < b := by exact_mod_cast hw₂
    have hlt := key (w₁, w₂) hw₁' hw₂'
    simp only at hlt hw
    have hw' : b * w₁ + w₂ = i := (tid_eq_natCast_iff (by omega) (by omega)).mp hw
    have hdiv : i / b = w₁ := by
      rw [← hw', Nat.mul_add_div (by omega), Nat.div_eq_of_lt hw₂', Nat.add_zero]
    have hmod : i % b = w₂ := by
      rw [← hw', Nat.mul_add_mod, Nat.mod_eq_of_lt hw₂']
    rw [hdiv, hmod]

/-- C3 at `N = 5`, blocks of 4 threads and the index 4, whose worker is thread 0 of
block 1. -/
theorem C3_unique_worker_witness :
    (∃! w : Nat × Nat, (w.1 : Int) < ((5 : Int) + 4 - 1) / 4 ∧ (w.2 : Int) < 4 ∧
      tid (toUInt 4) w.1 w.2 = ((4 : Nat) : Int)) ∧
    ((5 : Int) + 4 ≤ 2147483647 → GRID_SIZE 5 4 = ((5 : Int) + 4 - 1) / 4) :=
  C3_unique_worker 5 4 4 (by decide) (by decide) (by decide) (by decide) (by decide)

/-- C4 (amended).  A worker whose thread ID, as the kernel computes it, is at least `N`
performs no access and leaves the memory, trace included, as it is.  A worker whose thread
ID is not negative accesses buffers of length `N` at indices from 0 to `N - 1` only, and
does not fault.  The thread ID is the exact value of `blockDim * blockIdx + threadIdx`
whenever that value fits an `int`. -/
theorem C4_boundary_check (blockDim blockIdx threadIdx : Nat) (m : Mem) (N : Int) :
    (N ≤ tid blockDim blockIdx threadIdx →
      vectorAdd blockDim blockIdx threadIdx m N = .ok m) ∧
    (0 ≤ tid blockDim blockIdx threadIdx →
      (m.a.length : Int) = N → (m.b.length : Int) = N → (m.c.length : Int) = N →
      ∃ m' accs, vectorAdd blockDim blockIdx threadIdx m N = .ok m' ∧
        m'.trace = m.trace ++ accs ∧ ∀ acc ∈ accs, 0 ≤ acc.idx ∧ acc.idx < N) ∧
    (blockDim * blockIdx + threadIdx ≤ 2147483647 →
      tid blockDim blockIdx threadIdx = ((blockDim * blockIdx + threadIdx : Nat) : Int)) := by
  rw [vectorAdd_eq_kernelAt]
  refine ⟨fun h => kernelAt_skip h, ?_, fun h => tid_eq_of_lt h⟩
  generalize tid blockDim blockIdx threadIdx = t
  intro h₀ ha hb hc
  have hin : InBounds N m.a.length m.b.length m.c.length t := by
    intro hlt
    omega
  obtain ⟨m', hk, -, -, -, htr, -, -⟩ := kernelAt_inBounds hin
  refine ⟨m', accessesAt t N, hk, htr, ?_⟩
  intro acc hacc
  unfold accessesAt at hacc
  by_cases hlt : t < N
  · rw [if_pos hlt] at hacc
    simp only [List.mem_cons, List.mem_singleton, List.not_mem_nil, or_false] at hacc
    rcases hacc with e | e | e <;> rw [e] <;> exact ⟨h₀, hlt⟩
  · rw [if_neg hlt] at hacc
    exact absurd hacc (List.not_mem_nil acc)

/-- C4, the boundary scenario of the specification: `N = 5` and blocks of 4 give a grid of
2 blocks, and the workers of block 1 with the thread indices 1, 2 and 3, whose thread IDs
are 5, 6 and 7, leave the memory as it is. -/
theorem C4_boundary_check_witness :
    GRID_SIZE 5 4 = 2 ∧
    (gridWorkers (toUInt (GRID_SIZE 5 4)) (toUInt 4)).length = 8 ∧
    (gridWorkers (toUInt (GRID_SIZE 5 4)) (toUInt 4)).map (fun w => tid (toUInt 4) w.1 w.2) =
      [0, 1, 2, 3, 4, 5, 6, 7] ∧
    vectorAdd 4 1 1 ⟨[1, 2, 3, 4, 5], [5, 4, 3, 2, 1], [0, 0, 0, 0, 0], []⟩ 5 =
      .ok ⟨[1, 2, 3, 4, 5], [5, 4, 3, 2, 1], [0, 0, 0, 0, 0], []⟩ ∧
    vectorAdd 4 1 2 ⟨[1, 2, 3, 4, 5], [5, 4, 3, 2, 1], [0, 0, 0, 0, 0], []⟩ 5 =
      .ok ⟨[1, 2, 3, 4, 5], [5, 4, 3, 2, 1], [0, 0, 0, 0, 0], []⟩ ∧
    vectorAdd 4 1 3 ⟨[1, 2, 3, 4, 5], [5, 4, 3, 2, 1], [0, 0, 0, 0, 0], []⟩ 5 =
      .ok ⟨[1, 2, 3, 4, 5], [5, 4, 3, 2, 1], [0, 0, 0, 0, 0], []⟩ ∧
    (∃ m' accs, vectorAdd 4 1 0 ⟨[1, 2, 3, 4, 5], [5, 4, 3, 2, 1], [0, 0, 0, 0, 0], []⟩ 5 =
        .ok m' ∧ m'.trace = [] ++ accs ∧ ∀ acc ∈ accs, 0 ≤ acc.idx ∧ acc.idx < 5) :=
  ⟨by decide, by decide, by decide,
    (C4_boundary_check 4 1 1 ⟨[1, 2, 3, 4, 5], [5, 4, 3, 2, 1], [0, 0, 0, 0, 0], []⟩ 5).1
      (by decide),
    (C4_boundary_check 4 1 2 ⟨[1, 2, 3, 4, 5], [5, 4, 3, 2, 1], [0, 0, 0, 0, 0], []⟩ 5).1
      (by decide),
    (C4_boundary_check 4 1 3 ⟨[1, 2, 3, 4, 5], [5, 4, 3, 2, 1], [0, 0, 0, 0, 0], []⟩ 5).1
      (by decide),
    (C4_boundary_check 4 1 0 ⟨[1, 2, 3, 4, 5], [5, 4, 3, 2, 1], [0, 0, 0, 0, 0], []⟩ 5).2.1
      (by decide) (by decide) (by decide) (by decide)⟩

/-- C4 as stated fails for a worker far out in a large grid: with blocks of 1024 threads
the first worker of block 2097152 has the global index `2147483648`, which is not below
`N = 5`, but its thread ID is `-2147483648`; it passes the boundary check and reads
`a[-2147483648]`, outside the buffer. -/
theorem C4_boundary_check_counterexample :
    tid 1024 2097152 0 = -2147483648 ∧
    vectorAdd 1024 2097152 0 ⟨[1, 2, 3, 4, 5], [5, 4, 3, 2, 1], [0, 0, 0, 0, 0], []⟩ 5 =
      .error (.outOfBounds ⟨.a, -2147483648, false⟩) := by
  decide

/-- C5.  Over buffers of length `N` the verification loop runs to the end if and only if
`c[i] = a[i] + b[i]`, in `int` arithmetic, for every index `i` below `N`.  If that holds
and one element `c[k]` is then replaced by a different value, the verification fails, and
the assertion that fails is the one at index `k`. -/
theorem C5_verification (h : Host) (N : Int) (ha : (h.mem.a.length : Int) = N)
    (hb : (h.mem.b.length : Int) = N) (hc : (h.mem.c.length : Int) = N) :
    ((∃ h', verify N h = .ok h') ↔
      ∀ i : Nat, (i : Int) < N →
        ∃ x y, h.mem.a[i]? = some x ∧ h.mem.b[i]? = some y ∧
          h.mem.c[i]? = some (addInt x y)) ∧
    (∀ (k : Nat) (v : Int), (k : Int) < N →
      (∀ i : Nat, (i : Int) < N →
        ∃ x y, h.mem.a[i]? = some x ∧ h.mem.b[i]? = some y ∧
          h.mem.c[i]? = some (addInt x y)) →
      h.mem.c[k]? ≠ some v →
      verify N { h with mem := { h.mem with c := h.mem.c.set k v } } =
        .error (.assertFailed (k : Int))) := by
  obtain ⟨n, rfl⟩ := Int.eq_ofNat_of_zero_le (show (0 : Int) ≤ N by omega)
  have ha' : h.mem.a.length = n := by omega
  have hb' : h.mem.b.length = n := by omega
  have hc' : h.mem.c.length = n := by omega
  have hgood : (∀ i, i < n → Good h.mem i) ↔
      ∀ i : Nat, (i : Int) < (n : Int) →
        ∃ x y, h.mem.a[i]? = some x ∧ h.mem.b[i]? = some y ∧
          h.mem.c[i]? = some (addInt x y) := by
    constructor
    · intro hg i hi
      have hi' : i < n := by omega
      exact (good_iff (by omega) (by omega) (by omega)).mp (hg i hi')
    · intro hg i hi
      exact (good_iff (by omega) (by omega) (by omega)).mpr (hg i (by omega))
  constructor
  · rw [← hgood, ← forLoop_verify_iff h.mem n ha' hb' hc']
    unfold verify
    constructor
    · rintro ⟨h', hh'⟩
      cases hf : forLoop (n : Int) verifyBody h.mem with
      | error f =>
        rw [hf] at hh'
        cases hh'
      | ok m' => exact ⟨m', rfl⟩
    · rintro ⟨m', hm'⟩
      rw [hm']
      exact ⟨_, rfl⟩
  · intro k v hk hall hv
    have hk' : k < n := by omega
    have hg := hgood.mpr hall
    have hbad : ¬ Good { h.mem with c := h.mem.c.set k v } k := by
      intro hcon
      have hgk := hg k hk'
      unfold Good at hcon hgk
      simp only at hcon
      rw [← hgk, List.getD_eq_getElem?_getD, List.getD_eq_getElem?_getD,
        List.getElem?_set_self (by omega), List.getElem?_eq_getElem (by omega)] at hcon
      simp only [Option.getD_some] at hcon
      apply hv
      rw [List.getElem?_eq_getElem (by omega), hcon]
    have hbefore : ∀ j, 0 ≤ j → j < k → Good { h.mem with c := h.mem.c.set k v } j := by
      intro j _ hj
      have hgj := hg j (by omega)
      unfold Good at hgj ⊢
      simp only
      rw [← hgj, List.getD_eq_getElem?_getD, List.getD_eq_getElem?_getD,
        List.getElem?_set_ne (by omega)]
    have := iterate_verify_bad { h.mem with c := h.mem.c.set k v } n 0 k
      (by simp only; omega) (by simp only; omega)
      (by simp only [List.length_set]; omega) (Nat.zero_le _) (by omega) hbefore hbad
    rw [Nat.cast_zero] at this
    simp only [verify, forLoop, Int.toNat_ofNat, this]

/-- C5 at `N = 3`: the verification of `c = [5, 7, 9]` against `a = [1, 2, 3]` and
`b = [4, 5, 6]` runs to the end, and with `c[1]` replaced by 0 it fails at index 1. -/
theorem C5_verification_witness :
    verify 3 ⟨⟨[1, 2, 3], [4, 5, 6], [5, 7, 9], []⟩, [], 0, ""⟩ =
      .ok ⟨⟨[1, 2, 3], [4, 5, 6], [5, 7, 9], []⟩, [.verify], 0, ""⟩ ∧
    verify 3 ⟨⟨[1, 2, 3], [4, 5, 6], [5, 0, 9], []⟩, [], 0, ""⟩ =
      .error (.assertFailed 1) :=
  ⟨by decide,
    (C5_verification ⟨⟨[1, 2, 3], [4, 5, 6], [5, 7, 9], []⟩, [], 0, ""⟩ 3
      (by decide) (by decide) (by decide)).2 1 0 (by decide)
      ((C5_verification ⟨⟨[1, 2, 3], [4, 5, 6], [5, 7, 9], []⟩, [], 0, ""⟩ 3
        (by decide) (by decide) (by decide)).1.mp
        ⟨⟨⟨[1, 2, 3], [4, 5, 6], [5, 7, 9], []⟩, [.verify], 0, ""⟩, by decide⟩)
      (by decide)⟩

/-- C6.  Whatever non-negative values `rand()` returns, the initialisation loop over
buffers `a` and `b` of length `N` runs to the end, and afterwards every `a[i]` and `b[i]`
with `i` below `N` is at least 0 and below 100. -/
theorem C6_inputs_in_range (rand : Nat → Int) (h : Host) (N : Int)
    (hrand : ∀ k, 0 ≤ rand k) (ha : (h.mem.a.length : Int) = N)
    (hb : (h.mem.b.length : Int) = N) :
    ∃ h', initLoop rand N h = .ok h' ∧
      ∀ i : Nat, (i : Int) < N →
        ∃ x y, h'.mem.a[i]? = some x ∧ h'.mem.b[i]? = some y ∧
          0 ≤ x ∧ x < 100 ∧ 0 ≤ y ∧ y < 100 := by
  obtain ⟨n, rfl⟩ := Int.eq_ofNat_of_zero_le (show (0 : Int) ≤ N by omega)
  obtain ⟨h', hr, -, -, -, -, -, hval⟩ := initLoop_ok rand n h (by omega) (by omega)
  refine ⟨h', hr, ?_⟩
  intro i hi
  obtain ⟨e₁, e₂⟩ := hval i (by omega)
  obtain ⟨x₁, x₂⟩ := modInt_100_range (hrand (h.randCalls + 2 * i))
  obtain ⟨y₁, y₂⟩ := modInt_100_range (hrand (h.randCalls + 2 * i + 1))
  exact ⟨_, _, e₁, e₂, x₁, x₂, y₁, y₂⟩

/-- C6 at `N = 3` with `rand()` returning 1234, 1271, 1308, ... -/
theorem C6_inputs_in_range_witness :
    initLoop (fun k => 37 * (k : Int) + 1234) 3 ⟨⟨[7, 7, 7], [8, 8, 8], [9, 9, 9], []⟩, [], 0, ""⟩ =
      .ok ⟨⟨[34, 8, 82], [71, 45, 19], [9, 9, 9], []⟩, [.hostInit], 6, ""⟩ ∧
    ∃ h', initLoop (fun k => 37 * (k : Int) + 1234) 3
        ⟨⟨[7, 7, 7], [8, 8, 8], [9, 9, 9], []⟩, [], 0, ""⟩ = .ok h' ∧
      ∀ i : Nat, (i : Int) < 3 →
        ∃ x y, h'.mem.a[i]? = some x ∧ h'.mem.b[i]? = some y ∧
          0 ≤ x ∧ x < 100 ∧ 0 ≤ y ∧ y < 100 :=
  ⟨by decide,
    C6_inputs_in_range (fun k => 37 * (k : Int) + 1234)
      ⟨⟨[7, 7, 7], [8, 8, 8], [9, 9, 9], []⟩, [], 0, ""⟩ 3
      (fun k => by positivity) (by decide) (by decide)⟩

/-- C7.  Whatever values `rand()` returns, whatever the fresh buffers contain and whatever
`cudaGetDevice` returns, the program, with `N = 65536` and blocks of 1024 threads, does
not fault and does not fail its verification assertion: it prints the success message and
returns the status 0. -/
theorem C7_main_succeeds (env : Env) :
    (∃ r, main env = .ok r ∧ r.status = 0 ∧ r.out = "COMPLETED SUCCESSFULLY!\n") ∧
      ∀ f, main env ≠ .error f := by
  refine ⟨⟨_, main_eq env, rfl, rfl⟩, ?_⟩
  intro f hf
  rw [main_eq env] at hf
  cases hf

/-- C8 (amended).  The steps of the program in the order of issue: the allocation of `a`,
`b` and `c`; the query of the device; the advice that `a` and `b` prefer the host; the
prefetch of `c` to the device; the initialisation loop; the read-mostly advice on `a` and
`b`; the prefetch of `a` and `b` to the device; the kernel launch over 64 blocks of 1024
threads; the synchronisation; the prefetch of `a`, `b` and `c` to the host; the
verification loop; the release of `a`, `b` and `c`; the success message.  In particular
the prefetch of `c` to the device is issued before the initialisation loop. -/
theorem C8_order_of_steps (env : Env) :
    ∃ r, main env = .ok r ∧
      r.ops =
        [.mallocManaged .a 262144, .mallocManaged .b 262144, .mallocManaged .c 262144,
          .getDevice,
          .memAdvise .a 262144 .setPreferredLocation cudaCpuDeviceId,
          .memAdvise .b 262144 .setPreferredLocation cudaCpuDeviceId,
          .memPrefetchAsync .c 262144 env.getDeviceStatus,
          .hostInit,
          .memAdvise .a 262144 .setReadMostly env.getDeviceStatus,
          .memAdvise .b 262144 .setReadMostly env.getDeviceStatus,
          .memPrefetchAsync .a 262144 env.getDeviceStatus,
          .memPrefetchAsync .b 262144 env.getDeviceStatus,
          .launchKernel 64 1024,
          .deviceSynchronize,
          .memPrefetchAsync .a 262144 cudaCpuDeviceId,
          .memPrefetchAsync .b 262144 cudaCpuDeviceId,
          .memPrefetchAsync .c 262144 cudaCpuDeviceId,
          .verify,
          .free .a, .free .b, .free .c,
          .print "COMPLETED SUCCESSFULLY!\n"] :=
  ⟨_, main_eq env, rfl⟩

/-- C8 as stated fails: in a run in which `rand()` returns 0, the fresh buffers hold 0 and
`cudaGetDevice` returns 0, the prefetch of `c` to the device is step 6 and the
initialisation loop is step 7, counted from 0, so the prefetch is issued before the
loop, not after it. -/
theorem C8_order_of_steps_counterexample :
    ∃ r, main ⟨fun _ => 0, fun _ => 0, fun _ => 0, fun _ => 0, 0⟩ = .ok r ∧
      r.ops.indexOf (.memPrefetchAsync .c 262144 0) = 6 ∧
      r.ops.indexOf .hostInit = 7 ∧
      r.ops.indexOf (.launchKernel 64 1024) = 12 :=
  ⟨_, main_eq ⟨fun _ => 0, fun _ => 0, fun _ => 0, fun _ => 0, 0⟩, by decide, by decide,
    by decide⟩

/-- C9 (amended).  For every `N`, all buffers of length `N` and every grid of at
most `2 ^ 31` workers, the kernel run over the whole grid does not fault and changes only
`c`: the buffers `a` and `b` are as before, every write goes to `c`, and `c[i]` with `i`
below `N` is written exactly once when `i` is below the number of workers of the grid and
not at all otherwise. -/
theorem C9_only_c_written (gridDim blockDim : Nat) (m : Mem) (N : Int)
    (hgrid : gridDim * blockDim ≤ 2147483648) (ha : (m.a.length : Int) = N)
    (hb : (m.b.length : Int) = N) (hc : (m.c.length : Int) = N) :
    ∃ m' accs, runWorkers blockDim N (gridWorkers gridDim blockDim) m = .ok m' ∧
      m'.a = m.a ∧ m'.b = m.b ∧ m'.c.length = m.c.length ∧ m'.trace = m.trace ++ accs ∧
      (∀ acc ∈ accs, acc.isWrite = true → acc.buf = .c) ∧
      (∀ i : Nat, (i : Int) < N →
        accs.count ⟨.c, (i : Int), true⟩ = if i < gridDim * blockDim then 1 else 0) ∧
      (∀ i : Nat, gridDim * blockDim ≤ i → m'.c[i]? = m.c[i]?) := by
  rw [runWorkers_eq_runAt, gridWorkers_map_tid hgrid]
  obtain ⟨m', hr, ha', hb', hl', htr, -, hskip⟩ :=
    runAt_ok (N := N) _ m (inBounds_range _ rfl ha hb hc)
  refine ⟨m', _, hr, ha', hb', hl', htr, write_flatMap_c N _, ?_, ?_⟩
  · intro i hi
    rw [count_write_flatMap N (i : Int) hi, count_range_cast]
  · intro i hi
    apply hskip
    intro t ht _ e
    obtain ⟨j, hj, rfl⟩ := List.mem_map.mp ht
    have := List.mem_range.mp hj
    omega

/-- C9 at `N = 5` and a grid of 2 blocks of 4 threads. -/
theorem C9_only_c_written_witness :
    ∃ m' accs, runWorkers 4 5 (gridWorkers 2 4)
        ⟨[1, 2, 3, 4, 5], [5, 4, 3, 2, 1], [0, 0, 0, 0, 0], []⟩ = .ok m' ∧
      m'.a = [1, 2, 3, 4, 5] ∧ m'.b = [5, 4, 3, 2, 1] ∧
      m'.c.length = [(0 : Int), 0, 0, 0, 0].length ∧ m'.trace = [] ++ accs ∧
      (∀ acc ∈ accs, acc.isWrite = true → acc.buf = .c) ∧
      (∀ i : Nat, (i : Int) < 5 →
        accs.count ⟨.c, (i : Int), true⟩ = if i < 2 * 4 then 1 else 0) ∧
      (∀ i : Nat, 2 * 4 ≤ i → m'.c[i]? = [(0 : Int), 0, 0, 0, 0][i]?) :=
  C9_only_c_written 2 4 ⟨[1, 2, 3, 4, 5], [5, 4, 3, 2, 1], [0, 0, 0, 0, 0], []⟩ 5
    (by decide) (by decide) (by decide) (by decide)

/-- C9 as stated fails for a grid that is too small and for a grid that is too large.
With `N = 4` and one block of 2 threads, `c[2]` and `c[3]` are never written.  With
`N = 1` and 2097153 blocks of 1024 threads, the run ends in a fault. -/
theorem C9_only_c_written_counterexample :
    runWorkers 2 4 (gridWorkers 1 2) ⟨[1, 2, 3, 4], [10, 20, 30, 40], [0, 0, 0, 0], []⟩ =
      .ok ⟨[1, 2, 3, 4], [10, 20, 30, 40], [11, 22, 0, 0],
        [⟨.a, 0, false⟩, ⟨.b, 0, false⟩, ⟨.c, 0, true⟩,
          ⟨.a, 1, false⟩, ⟨.b, 1, false⟩, ⟨.c, 1, true⟩]⟩ ∧
    (runWorkers 1024 1 (gridWorkers 2097153 1024) ⟨[1], [2], [0], []⟩).toOption = none := by
  have ht : tid 1024 2097152 0 = -2147483648 := by decide
  refine ⟨by decide, ?_⟩
  refine runWorkers_fault _ _ _ _ (2097152, 0) (mem_gridWorkers.mpr ⟨by decide, by decide⟩) ?_
  intro h
  rw [ht] at h
  exact absurd (h (by decide)).1 (by decide)

/-- C10.  The final contents of `a`, `b` and `c` do not depend on the order in which the
workers run: for every `N`, grid size, block size and memory, the kernel body applied by
the workers of the grid in any order ends as it does in ascending order, with the same
contents of the three buffers, or with a fault in both orders. -/
theorem C10_order_irrelevant (gridDim blockDim : Nat) (m : Mem) (N : Int)
    (ws : List (Nat × Nat)) (hperm : ws.Perm (gridWorkers gridDim blockDim)) :
    (runWorkers blockDim N ws m).toOption.map (fun m' => (m'.a, m'.b, m'.c)) =
      (runWorkers blockDim N (gridWorkers gridDim blockDim) m).toOption.map
        (fun m' => (m'.a, m'.b, m'.c)) := by
  rw [runWorkers_eq_runAt, runWorkers_eq_runAt]
  exact runAt_perm (hperm.map _) m

/-- C10 at `N = 5`, a grid of 2 blocks of 4 threads and the workers in descending order. -/
theorem C10_order_irrelevant_witness :
    (gridWorkers 2 4).reverse = [(1, 3), (1, 2), (1, 1), (1, 0), (0, 3), (0, 2), (0, 1), (0, 0)] ∧
    (runWorkers 4 5 (gridWorkers 2 4).reverse
        ⟨[1, 2, 3, 4, 5], [5, 4, 3, 2, 1], [0, 0, 0, 0, 0], []⟩).toOption.map
        (fun m' => (m'.a, m'.b, m'.c)) =
      some ([1, 2, 3, 4, 5], [5, 4, 3, 2, 1], [6, 6, 6, 6, 6]) ∧
    (runWorkers 4 5 (gridWorkers 2 4).reverse
        ⟨[1, 2, 3, 4, 5], [5, 4, 3, 2, 1], [0, 0, 0, 0, 0], []⟩).toOption.map
        (fun m' => (m'.a, m'.b, m'.c)) =
      (runWorkers 4 5 (gridWorkers 2 4)
        ⟨[1, 2, 3, 4, 5], [5, 4, 3, 2, 1], [0, 0, 0, 0, 0], []⟩).toOption.map
        (fun m' => (m'.a, m'.b, m'.c)) :=
  ⟨by decide, by decide,
    C10_order_irrelevant 2 4 ⟨[1, 2, 3, 4, 5], [5, 4, 3, 2, 1], [0, 0, 0, 0, 0], []⟩ 5
      (gridWorkers 2 4).reverse (List.reverse_perm _)⟩

end VectorAdd
